import Mathlib

/-!
# gmaps/entry.go: extraction of a business record from a nested-array document

A shallow embedding of `src/gmaps/entry.go` and theorems about it.

Modelling conventions.

* A decoded JSON value (Go `any` as produced by `encoding/json`) is a `Node`.
* A Go run-time panic is an explicit `Fault`; a function that can panic returns
  `Except Fault _`.
* Go `int` indices are `Int`; indexing a slice with a negative or too large index
  panics.
* A `float64` decoded from JSON is a finite number and is modelled by a rational.
* Go slices are lists (a nil slice and an empty slice are both `[]`); a Go map is
  `Option` of an association list, `none` being the nil map.
-/

set_option linter.dupNamespace false

namespace Gmaps

/-! ## Data model -/

/-- The values of Go's `any` after `json.Unmarshal`: `nil`, `bool`, `float64`,
`string`, `[]any` and `map[string]any`. -/
inductive Node where
  | null : Node
  | bool (b : Bool) : Node
  | num (x : ℚ) : Node
  | str (s : String) : Node
  | arr (xs : List Node) : Node
  | obj (kvs : List (String × Node)) : Node

/-- Go run-time panics that the code of this file can raise. -/
inductive Fault where
  /-- `a[i]` with `i < 0` or `i >= len(a)` -/
  | indexOutOfRange (idx : Int) (len : Nat) : Fault
  /-- `x.(T)` in its one-result form when `x` does not hold a `T` -/
  | interfaceConversion : Fault
  deriving DecidableEq, Repr

/-- A type `T` that can instantiate the type parameter of `getNthElementAndCast`:
its zero value (`var defaultVal T`) and the two-result type assertion `x.(T)`. -/
class Target (T : Type) where
  zero : T
  assert : Node → Option T

/-- Target `string`. -/
instance : Target String where
  zero := ""
  assert
    | .str s => some s
    | _ => none

/-- Target `[]any`. -/
instance : Target (List Node) where
  zero := []
  assert
    | .arr xs => some xs
    | _ => none

/-- Target `float64`. -/
instance : Target ℚ where
  zero := 0
  assert
    | .num x => some x
    | _ => none

/-- Target `int`: no value decoded by `encoding/json` has dynamic type `int`, so
the assertion never succeeds. -/
instance : Target Int where
  zero := 0
  assert := fun _ => none

/-- Slice indexing `arr[idx]`: `none` stands for the index-out-of-range panic. -/
def index (arr : List Node) (idx : Int) : Option Node :=
  if idx < 0 then none else arr.get? idx.toNat

/-! ## The path extractor -/

/-- Embedding of `getNthElementAndCast[T](arr []any, indexes ...int) T`. -/
def getNthElementAndCast (T : Type) [Target T] : List Node → List Int → Except Fault T
  -- `if len(indexes) == 0 { return defaultVal }`
  | _, [] => .ok Target.zero
  -- the loop `for len(indexes) > 1` is over; `arr[indexes[0]].(T)`
  | arr, [idx] =>
    if arr.length = 0 then .ok Target.zero
    else
      match index arr idx with
      | none => .error (.indexOutOfRange idx arr.length)
      | some x =>
        match Target.assert x with
        | some ans => .ok ans
        | none => .ok Target.zero
  -- one turn of the loop `for len(indexes) > 1`
  | arr, idx :: i :: rest =>
    if idx ≥ (arr.length : Int) then .ok Target.zero
    else
      match index arr idx with
      | none => .error (.indexOutOfRange idx arr.length)
      | some .null => .ok Target.zero
      | some (.arr next) => getNthElementAndCast T next (i :: rest)
      | some _ => .ok Target.zero

/-! ## Reference definitions used to state the contract of the path extractor -/

/-- Whether a node is a sequence. -/
def Node.isArr : Node → Bool
  | .arr _ => true
  | _ => false

/-- Reference walk, from the words of the contract: follow the indices one at a
time; a step succeeds when the index is within range of the current container,
and every step but the last must land on a sequence. -/
def walk : List Node → List Int → Option Node
  | _, [] => none
  | arr, [i] => index arr i
  | arr, i :: j :: rest =>
    match index arr i with
    | some (.arr next) => walk next (j :: rest)
    | _ => none

/-- Reference descent: the container reached after following all the given
indices through nested sequences. -/
def descend : List Node → List Int → Option (List Node)
  | arr, [] => some arr
  | arr, i :: rest =>
    match index arr i with
    | some (.arr next) => descend next rest
    | _ => none

/-- Coercion to the target type, with the zero value for a mismatch. -/
def coerce (T : Type) [Target T] (x : Node) : T :=
  match Target.assert x with
  | some v => v
  | none => Target.zero

/-! ## Standard-library operations used by the derivers -/

/-- The call `strings.ReplaceAll(s, c, "")` for a pattern `c` of one character:
every occurrence of the character is removed. -/
def removeAll (c : Char) (s : String) : String :=
  ⟨s.data.filter (fun x => x != c)⟩

/-- The call `strings.Join(elems, "")`. -/
def joinAll (elems : List String) : String :=
  ⟨(elems.map String.data).flatten⟩

/-- Go's `unicode.IsSpace`: the code points with the Unicode White_Space property. -/
def unicodeIsSpace (c : Char) : Bool :=
  let n := c.toNat
  (0x09 ≤ n && n ≤ 0x0d) || n == 0x20 || n == 0x85 || n == 0xa0 || n == 0x1680 ||
  (0x2000 ≤ n && n ≤ 0x200a) || n == 0x2028 || n == 0x2029 || n == 0x202f ||
  n == 0x205f || n == 0x3000

/-- Go's `strings.TrimSpace`. -/
def TrimSpace (s : String) : String :=
  ⟨((s.data.dropWhile unicodeIsSpace).reverse.dropWhile unicodeIsSpace).reverse⟩

/-- Go's `strings.TrimPrefix`. -/
def TrimPrefix (s pre : String) : String :=
  if pre.data.isPrefixOf s.data then ⟨s.data.drop pre.data.length⟩ else s

/-- The conversion `int(x)` of a `float64`: the fraction is discarded (truncation
towards zero). Outside the range of `int` Go leaves the result to the
implementation; the value produced on amd64 is used. -/
def floatToInt (x : ℚ) : Int :=
  let t := Int.tdiv x.num (x.den : Int)
  if -(2 : Int) ^ 63 ≤ t ∧ t < (2 : Int) ^ 63 then t else -(2 : Int) ^ 63

/-- The statement `m[k] = v` on a non-nil map held as an association list. -/
def mapSet {κ ν : Type} [DecidableEq κ] : List (κ × ν) → κ → ν → List (κ × ν)
  | [], k, v => [(k, v)]
  | (k', v') :: m, k, v => if k' = k then (k, v) :: m else (k', v') :: mapSet m k v

/-- The one-result type assertion `x.([]any)`, which panics on a mismatch. -/
def mustArr : Node → Except Fault (List Node)
  | .arr xs => .ok xs
  | _ => .error .interfaceConversion

/-! ## Record types -/

/-- Go type `Image`. -/
structure Image where
  Title : String := ""
  Image : String := ""
  deriving DecidableEq, Repr

/-- Go type `LinkSource`. -/
structure LinkSource where
  Link : String := ""
  Source : String := ""
  deriving DecidableEq, Repr

/-- Go type `Owner`. -/
structure Owner where
  ID : String := ""
  Name : String := ""
  Link : String := ""
  deriving DecidableEq, Repr

/-- Go type `Address`. -/
structure Address where
  Borough : String := ""
  Street : String := ""
  City : String := ""
  PostalCode : String := ""
  State : String := ""
  Country : String := ""
  deriving DecidableEq, Repr

/-- Go type `Option` (an option of an about section). -/
structure AboutOption where
  Name : String := ""
  Enabled : Bool := false
  deriving DecidableEq, Repr

/-- Go type `About`. -/
structure About where
  ID : String := ""
  Name : String := ""
  Options : List AboutOption := []
  deriving DecidableEq, Repr

/-- Go type `Review`. -/
structure Review where
  Name : String := ""
  ProfilePicture : String := ""
  Rating : Int := 0
  Description : String := ""
  Images : List String := []
  When : String := ""
  deriving DecidableEq, Repr

/-- Go type `WorkingHours`. -/
structure WorkingHours where
  Day : String := ""
  OpenHours : String := ""
  Open : Bool := false
  deriving DecidableEq, Repr

/-- Go type `Entry`; the default value of every field is its Go zero value. -/
structure Entry where
  Link : String := ""
  Cid : String := ""
  Title : String := ""
  Categories : List String := []
  Category : String := ""
  Address : String := ""
  WorkingHours : List WorkingHours := []
  PopularTimes : Option (List (String × List (Int × Int))) := none
  WebSite : String := ""
  Phone : String := ""
  PlusCode : String := ""
  ReviewCount : Int := 0
  ReviewRating : ℚ := 0
  ReviewsPerRating : Option (List (Int × Int)) := none
  Latitude : ℚ := 0
  Longtitude : ℚ := 0
  Status : String := ""
  Description : String := ""
  ReviewsLink : String := ""
  Thumbnail : String := ""
  Timezone : String := ""
  PriceRange : String := ""
  DataID : String := ""
  Images : List Image := []
  Reservations : List LinkSource := []
  OrderOnline : List LinkSource := []
  Services : LinkSource := {}
  Owner : Owner := {}
  CompleteAddress : Gmaps.Address := {}
  About : List About := []
  UserReviews : List Review := []
  Emails : List String := []
  deriving DecidableEq

/-! ## Sub-field derivers -/

/-- Go type `getLinkSourceParams`. -/
structure getLinkSourceParams where
  arr : List Node
  source : List Int
  link : List Int

/-- The loop `for i := range params.arr` of `getLinkSource`, over the indices
still to visit, with the slice `result` built so far. -/
def getLinkSourceLoop (params : getLinkSourceParams) :
    List Nat → List LinkSource → Except Fault (List LinkSource)
  | [], result => .ok result
  | i :: is, result =>
    match getNthElementAndCast (List Node) params.arr [(i : Int)] with
    | .error f => .error f
    | .ok item =>
      match getNthElementAndCast String item params.source with
      | .error f => .error f
      | .ok source =>
        match getNthElementAndCast String item params.link with
        | .error f => .error f
        | .ok link =>
          if link ≠ "" ∧ source ≠ "" then
            getLinkSourceLoop params is (result ++ [{ Link := link, Source := source }])
          else
            getLinkSourceLoop params is result

/-- Embedding of `getLinkSource`. -/
def getLinkSource (params : getLinkSourceParams) : Except Fault (List LinkSource) :=
  getLinkSourceLoop params (List.range params.arr.length) []

/-- The loop `for _, char := range superCleanedTime` of `getHours`; `isDigit`
stands for `unicode.IsDigit`. -/
def hasDigit (isDigit : Char → Bool) (s : String) : Bool :=
  s.data.foldl (fun isOpen char => if isDigit char then true else isOpen) false

/-- The body of the loop of `getHours` for one `item`. The call `println`, which
only writes the cleaned text to the standard error stream, is left out. -/
def getHoursItem (isDigit : Char → Bool) (item : Node) : Except Fault WorkingHours :=
  match mustArr item with
  | .error f => .error f
  | .ok seq =>
    match getNthElementAndCast String seq [0] with
    | .error f => .error f
    | .ok day =>
      match getNthElementAndCast (List Node) seq [1] with
      | .error f => .error f
      | .ok timesI =>
        let times := timesI.map (coerce String)
        let timesInString := joinAll times
        let cleanedTime := removeAll '\u202f' timesInString
        let superCleanedTime := removeAll '"' cleanedTime
        .ok { Day := day, OpenHours := superCleanedTime,
              Open := hasDigit isDigit superCleanedTime }

/-- The loop `for _, item := range items` of `getHours`, with the slice
`workingHours` built so far. -/
def getHoursLoop (isDigit : Char → Bool) :
    List Node → List WorkingHours → Except Fault (List WorkingHours)
  | [], workingHours => .ok workingHours
  | item :: rest, workingHours =>
    match getHoursItem isDigit item with
    | .error f => .error f
    | .ok workingHour => getHoursLoop isDigit rest (workingHours ++ [workingHour])

/-- Embedding of `getHours`; `isDigit` stands for `unicode.IsDigit`. -/
def getHours (isDigit : Char → Bool) (darray : List Node) :
    Except Fault (List WorkingHours) :=
  match getNthElementAndCast (List Node) darray [34, 1] with
  | .error f => .error f
  | .ok items => getHoursLoop isDigit items []

/-- The map literal `dayOfWeek` of `getPopularTimes` together with the lookup
`dayOfWeek[day]`, which yields the empty string for a missing key. -/
def dayOfWeek (day : Int) : String :=
  if day = 1 then "Monday"
  else if day = 2 then "Tuesday"
  else if day = 3 then "Wednesday"
  else if day = 4 then "Thursday"
  else if day = 5 then "Friday"
  else if day = 6 then "Saturday"
  else if day = 7 then "Sunday"
  else ""

/-- The inner loop `for i := range timesI` of `getPopularTimes`, with the map
`times` built so far; `.ok none` stands for the exit `return nil`. -/
def popularTimesHours :
    List Node → List (Int × Int) → Except Fault (Option (List (Int × Int)))
  | [], times => .ok (some times)
  | ti :: rest, times =>
    match ti with
    | .arr t =>
      match index t 1 with
      | none => .error (.indexOutOfRange 1 t.length)
      | some (.num v) =>
        match index t 0 with
        | none => .error (.indexOutOfRange 0 t.length)
        | some (.num h) => popularTimesHours rest (mapSet times (floatToInt h) (floatToInt v))
        | some _ => .ok none
      | some _ => .ok none
    | _ => .ok none

/-- The outer loop `for ii := range items` of `getPopularTimes`, with the map
`popularTimes` built so far; `.ok none` is the nil map of `return nil`. -/
def popularTimesDays :
    List Node → List (String × List (Int × Int)) →
      Except Fault (Option (List (String × List (Int × Int))))
  | [], popularTimes => .ok (some popularTimes)
  | it :: rest, popularTimes =>
    match it with
    | .arr item =>
      match getNthElementAndCast ℚ item [0] with
      | .error f => .error f
      | .ok d =>
        match getNthElementAndCast (List Node) item [1] with
        | .error f => .error f
        | .ok timesI =>
          match popularTimesHours timesI [] with
          | .error f => .error f
          | .ok none => .ok none
          | .ok (some times) =>
            popularTimesDays rest (mapSet popularTimes (dayOfWeek (floatToInt d)) times)
    | _ => .ok none

/-- Embedding of `getPopularTimes`. -/
def getPopularTimes (darray : List Node) :
    Except Fault (Option (List (String × List (Int × Int)))) :=
  match getNthElementAndCast (List Node) darray [84, 0] with
  | .error f => .error f
  | .ok items => popularTimesDays items []

/-! ## The about and review collectors (loop bodies of `EntryFromJSON`) -/

/-- The loop `for j := range optsI` over the options of one about section, with
the slice `about.Options` built so far. -/
def aboutOptions (optsI : List Node) :
    List Nat → List AboutOption → Except Fault (List AboutOption)
  | [], options => .ok options
  | j :: js, options =>
    match getNthElementAndCast Int optsI [(j : Int), 2, 1, 0, 0] with
    | .error f => .error f
    | .ok enabled =>
      match getNthElementAndCast String optsI [(j : Int), 1] with
      | .error f => .error f
      | .ok name =>
        if name ≠ "" then
          aboutOptions optsI js (options ++ [{ Name := name, Enabled := decide (enabled = 1) }])
        else
          aboutOptions optsI js options

/-- The value `about` computed by one turn of the loop `for i := range aboutI`. -/
def aboutSection (aboutI : List Node) (i : Nat) : Except Fault About :=
  match getNthElementAndCast (List Node) aboutI [(i : Int)] with
  | .error f => .error f
  | .ok el =>
    match getNthElementAndCast String el [0] with
    | .error f => .error f
    | .ok id =>
      match getNthElementAndCast String el [1] with
      | .error f => .error f
      | .ok name =>
        match getNthElementAndCast (List Node) el [2] with
        | .error f => .error f
        | .ok optsI =>
          match aboutOptions optsI (List.range optsI.length) [] with
          | .error f => .error f
          | .ok options => .ok { ID := id, Name := name, Options := options }

/-- The loop `for j := range optsI` over the photo entries of one review, with
the slice `review.Images` built so far. -/
def reviewImages (optsI : List Node) : List Nat → List String → Except Fault (List String)
  | [], images => .ok images
  | j :: js, images =>
    match getNthElementAndCast String optsI [(j : Int), 6, 0] with
    | .error f => .error f
    | .ok val =>
      if val ≠ "" then reviewImages optsI js (images ++ [val])
      else reviewImages optsI js images

/-- The value `review` computed by one turn of the loop `for i := range reviewsI`;
`.ok none` stands for `continue`. -/
def reviewEntry (reviewsI : List Node) (i : Nat) : Except Fault (Option Review) :=
  match getNthElementAndCast (List Node) reviewsI [(i : Int)] with
  | .error f => .error f
  | .ok el =>
    match getNthElementAndCast String el [0, 1] with
    | .error f => .error f
    | .ok name =>
      match getNthElementAndCast String el [0, 2] with
      | .error f => .error f
      | .ok profilePicture =>
        match getNthElementAndCast String el [1] with
        | .error f => .error f
        | .ok when_ =>
          match getNthElementAndCast ℚ el [4] with
          | .error f => .error f
          | .ok rating =>
            match getNthElementAndCast String el [3] with
            | .error f => .error f
            | .ok description =>
              if name = "" then .ok none
              else
                match getNthElementAndCast (List Node) el [14] with
                | .error f => .error f
                | .ok optsI =>
                  match reviewImages optsI (List.range optsI.length) [] with
                  | .error f => .error f
                  | .ok images =>
                    .ok (some { Name := name, ProfilePicture := profilePicture,
                                Rating := floatToInt rating, Description := description,
                                Images := images, When := when_ })

/-! ## The record orchestrator -/

/-- The errors `EntryFromJSON` returns. -/
inductive GoError where
  /-- the error of `json.Unmarshal` -/
  | unmarshal (msg : String) : GoError
  /-- `fmt.Errorf("invalid json")` -/
  | invalidJSON : GoError
  /-- the error built by the deferred function from a recovered panic -/
  | recovered (f : Fault) : GoError
  deriving DecidableEq, Repr

/-- Statements that run on the named result `entry`: they yield a value or raise
a fault, and in both cases leave the record as they have mutated it so far. -/
def Build (α : Type) : Type := Entry → Except Fault α × Entry

/-- Sequencing of statements: a fault stops the run and keeps the record. -/
instance : Monad Build where
  pure a := fun e => (.ok a, e)
  bind m f := fun e =>
    match m e with
    | (.ok a, e') => f a e'
    | (.error x, e') => (.error x, e')

/-- Evaluation of an expression that may panic and does not touch `entry`. -/
def call {α : Type} (v : Except Fault α) : Build α := fun e => (v, e)

/-- An assignment to fields of `entry`. -/
def update (f : Entry → Entry) : Build Unit := fun e => (.ok (), f e)

/-- A `for i := range` loop whose body runs on `entry`. -/
def forEach : List Nat → (Nat → Build Unit) → Build Unit
  | [], _ => pure ()
  | i :: is, body => do
    body i
    forEach is body

/-- The statements of `EntryFromJSON` after the shape check, in source order;
`jd` is the decoded document and `darray` its element 6. -/
def populate (isDigit : Char → Bool) (jd darray : List Node) : Build Unit := do
  let link ← call (getNthElementAndCast String darray [27])
  update fun e => { e with Link := link }
  let title ← call (getNthElementAndCast String darray [11])
  update fun e => { e with Title := title }
  let categoriesI ← call (getNthElementAndCast (List Node) darray [13])
  let categories := categoriesI.map (coerce String)
  update fun e => { e with Categories := categories }
  update fun e => { e with Category := if 0 < categories.length then categories.headD "" else e.Category }
  let address ← call (getNthElementAndCast String darray [18])
  update fun e => { e with Address := TrimSpace (TrimPrefix address (title ++ ",")) }
  let workingHours ← call (getHours isDigit darray)
  update fun e => { e with WorkingHours := workingHours }
  let popularTimes ← call (getPopularTimes darray)
  update fun e => { e with PopularTimes := popularTimes }
  let webSite ← call (getNthElementAndCast String darray [7, 0])
  update fun e => { e with WebSite := webSite }
  let phone ← call (getNthElementAndCast String darray [178, 0, 0])
  update fun e => { e with Phone := phone }
  let plusCode ← call (getNthElementAndCast String darray [183, 2, 2, 0])
  update fun e => { e with PlusCode := plusCode }
  let reviewCount ← call (getNthElementAndCast ℚ darray [4, 8])
  update fun e => { e with ReviewCount := floatToInt reviewCount }
  let reviewRating ← call (getNthElementAndCast ℚ darray [4, 7])
  update fun e => { e with ReviewRating := reviewRating }
  let latitude ← call (getNthElementAndCast ℚ darray [9, 2])
  update fun e => { e with Latitude := latitude }
  let longtitude ← call (getNthElementAndCast ℚ darray [9, 3])
  update fun e => { e with Longtitude := longtitude }
  let cid ← call (getNthElementAndCast String jd [25, 3, 0, 13, 0, 0, 1])
  update fun e => { e with Cid := cid }
  let status ← call (getNthElementAndCast String darray [34, 4, 4])
  update fun e => { e with Status := status }
  let description ← call (getNthElementAndCast String darray [32, 1, 1])
  update fun e => { e with Description := description }
  let reviewsLink ← call (getNthElementAndCast String darray [4, 3, 0])
  update fun e => { e with ReviewsLink := reviewsLink }
  let thumbnail ← call (getNthElementAndCast String darray [72, 0, 1, 6, 0])
  update fun e => { e with Thumbnail := thumbnail }
  let timezone ← call (getNthElementAndCast String darray [30])
  update fun e => { e with Timezone := timezone }
  let priceRange ← call (getNthElementAndCast String darray [4, 2])
  update fun e => { e with PriceRange := priceRange }
  let dataID ← call (getNthElementAndCast String darray [10])
  update fun e => { e with DataID := dataID }
  let imagesI ← call (getNthElementAndCast (List Node) darray [171, 0])
  let items ← call (getLinkSource { arr := imagesI, link := [3, 0, 6, 0], source := [2] })
  update fun e => { e with
    Images := items.map fun it => { Title := it.Source, Image := it.Link } }
  let reservationsI ← call (getNthElementAndCast (List Node) darray [46])
  let reservations ← call (getLinkSource { arr := reservationsI, link := [0], source := [1] })
  update fun e => { e with Reservations := reservations }
  let orderOnlineFirst ← call (getNthElementAndCast (List Node) darray [75, 0, 1, 2])
  let orderOnlineI ←
    if orderOnlineFirst.length = 0 then
      call (getNthElementAndCast (List Node) darray [75, 0, 0, 2])
    else pure orderOnlineFirst
  let orderOnline ← call (getLinkSource { arr := orderOnlineI, link := [1, 2, 0], source := [0, 0] })
  update fun e => { e with OrderOnline := orderOnline }
  let servicesLink ← call (getNthElementAndCast String darray [38, 0])
  let servicesSource ← call (getNthElementAndCast String darray [38, 1])
  update fun e => { e with Services := { Link := servicesLink, Source := servicesSource } }
  let ownerID ← call (getNthElementAndCast String darray [57, 2])
  let ownerName ← call (getNthElementAndCast String darray [57, 1])
  update fun e => { e with Owner := { ID := ownerID, Name := ownerName } }
  update fun e => { e with
    Owner := if e.Owner.ID ≠ "" then
        { e.Owner with Link := "https://www.google.com/maps/contrib/" ++ e.Owner.ID }
      else e.Owner }
  let borough ← call (getNthElementAndCast String darray [183, 1, 0])
  let street ← call (getNthElementAndCast String darray [183, 1, 1])
  let city ← call (getNthElementAndCast String darray [183, 1, 3])
  let postalCode ← call (getNthElementAndCast String darray [183, 1, 4])
  let state ← call (getNthElementAndCast String darray [183, 1, 5])
  let country ← call (getNthElementAndCast String darray [183, 1, 6])
  update fun e => { e with
    CompleteAddress := { Borough := borough, Street := street, City := city,
                         PostalCode := postalCode, State := state, Country := country } }
  let aboutI ← call (getNthElementAndCast (List Node) darray [100, 1])
  forEach (List.range aboutI.length) fun i => do
    let about ← call (aboutSection aboutI i)
    update fun e => { e with About := e.About ++ [about] }
  let r1 ← call (getNthElementAndCast ℚ darray [52, 3, 0])
  let r2 ← call (getNthElementAndCast ℚ darray [52, 3, 1])
  let r3 ← call (getNthElementAndCast ℚ darray [52, 3, 2])
  let r4 ← call (getNthElementAndCast ℚ darray [52, 3, 3])
  let r5 ← call (getNthElementAndCast ℚ darray [52, 3, 4])
  update fun e => { e with
    ReviewsPerRating := some [(1, floatToInt r1), (2, floatToInt r2), (3, floatToInt r3),
                              (4, floatToInt r4), (5, floatToInt r5)] }
  let reviewsI ← call (getNthElementAndCast (List Node) darray [52, 0])
  forEach (List.range reviewsI.length) fun i => do
    let review ← call (reviewEntry reviewsI i)
    match review with
    | none => pure ()
    | some r => update fun e => { e with UserReviews := e.UserReviews ++ [r] }

/-- Embedding of `EntryFromJSON`. The decoding by `json.Unmarshal` is outside this
file: `decoded` is its outcome on the raw bytes, the decoded top-level sequence
or the decoding error. The result is the pair of named results `(entry, err)`;
when a panic is recovered, `entry` is the record as populated up to the panic. -/
def EntryFromJSON (isDigit : Char → Bool) (decoded : Except String (List Node)) :
    Entry × Option GoError :=
  match decoded with
  | .error msg => ({}, some (.unmarshal msg))
  | .ok jd =>
    if jd.length < 7 then ({}, some .invalidJSON)
    else
      match jd.get? 6 with
      | some (.arr darray) =>
        match populate isDigit jd darray {} with
        | (.ok _, entry) => (entry, none)
        | (.error f, entry) => (entry, some (.recovered f))
      | _ => ({}, some .invalidJSON)

/-- Embedding of `(*Entry).Validate`: `none` is the nil error. -/
def Entry.Validate (e : Entry) : Option String :=
  if e.Title = "" then some "title is empty"
  else if e.Category = "" then some "category is empty"
  else none

/-! ## Reference definitions used to state the contracts of the collectors -/

/-- The raw options of a raw about section: the sequence at its offset 2. -/
def rawOptions : Node → List Node
  | .arr (_ :: _ :: .arr opts :: _) => opts
  | _ => []

/-- The text at offset 1 of a sequence, empty when there is none. -/
def secondText : List Node → String
  | _ :: .str s :: _ => s
  | _ => ""

/-- The name of a raw option: the text at its relative path 1, empty when there
is none. -/
def optionName : Node → String
  | .arr o => secondText o
  | _ => ""

/-- The reviewer name of a raw review entry: the text at its relative path 0, 1,
empty when there is none. -/
def reviewerName : Node → String
  | .arr (.arr who :: _) => secondText who
  | _ => ""

/-- The traffic level that a list of (hour, level) pairs gives to the integer
hour `k`: the level, as an integer, of the last pair whose hour, as an integer,
is `k`. -/
def lastLevel (pairs : List (ℚ × ℚ)) (k : Int) : Option Int :=
  (pairs.reverse.find? (fun p => decide (floatToInt p.1 = k))).map (fun p => floatToInt p.2)

/-- A slice holding `x` at offset `n`, after `n` nulls. -/
def atOffset (n : Nat) (x : Node) : List Node :=
  List.replicate n Node.null ++ [x]

/-- A decoded document whose primary data sub-sequence (element 6) is empty and
whose top-level path 25, 3, 0, 13, 0, 0, 1 holds the text "1234". -/
def docCidOnly : List Node :=
  atOffset 6 (.arr []) ++ atOffset 18
    (.arr (atOffset 3 (.arr [.arr (atOffset 13 (.arr [.arr [.arr [.null, .str "1234"]]]))])))

/-- A decoded document whose primary data sub-sequence is the one-element
sequence `[null]`. -/
def docOneElement : List Node :=
  atOffset 6 (.arr [.null])

/-- A primary data sub-sequence whose histogram at path 84, 0 has one day entry,
weekday 1, with the one-element hour entry `[5]`. -/
def docShortHour : List Node :=
  atOffset 84 (.arr [.arr [.arr [.num 1, .arr [.arr [.num 5]]]]])

/-- A primary data sub-sequence whose histogram at path 84, 0 has one day entry
whose weekday is the text "x", with the hour entry `[1, 2]`. -/
def docTextWeekday : List Node :=
  atOffset 84 (.arr [.arr [.arr [.str "x", .arr [.arr [.num 1, .num 2]]]]])

/-- A primary data sub-sequence whose per-day entries at path 34, 1 are `items`. -/
def docHours (items : List Node) : List Node :=
  atOffset 34 (.arr [.null, .arr items])

/-- Two per-day entries: Monday with the one fragment `9<nnbsp>am - "5<nnbsp>pm"`,
which holds two narrow no-break spaces U+202F, two ordinary spaces and two
double quotes, followed by an empty entry. -/
def itemsMonday : List Node :=
  [.arr [.str "Mon", .arr [.str "9\u202fam - \"5\u202fpm\""]], .arr []]

/-- The record of the first entry of `itemsMonday`: the narrow no-break spaces
and the quotes are gone, the ordinary spaces are kept. -/
def recMonday : WorkingHours :=
  { Day := "Mon", OpenHours := "9am - 5pm", Open := true }

/-- The item sequence `[["https://a.example", "A"], ["", "B"], null]`. -/
def itemsLinks : List Node :=
  [.arr [.str "https://a.example", .str "A"], .arr [.str "", .str "B"], .null]

/-- The text that `getNthElementAndCast[string]` extracts at a relative path of an
item read as a sequence, the empty text standing in for a fault. -/
def textAt (path : List Int) (it : Node) : String :=
  match getNthElementAndCast String (coerce (List Node) it) path with
  | .ok v => v
  | .error _ => ""

/-- A primary data sub-sequence of `n` elements that holds `f i` at offset `i`. -/
def darrayOf (n : Nat) (f : Nat → Node) : List Node :=
  (List.range n).map f

/-- A decoded document whose primary data sub-sequence holds a link at offset 27
and, at path 34, 1, the per-day entry `"Mon"`, which is not a sequence. -/
def docFaultAfterLink : List Node :=
  atOffset 6 (.arr (darrayOf 48 fun i =>
    if i = 27 then .str "https://maps.example/place"
    else if i = 34 then .arr [.null, .arr [.str "Mon"]]
    else .null))

/-- A decoded document with one about section at path 100, 1 whose only option is
named "Wheelchair" and holds the number 1 at its relative path 2, 1, 0, 0. -/
def docAboutEnabled : List Node :=
  atOffset 6 (.arr (darrayOf 101 fun i =>
    if i = 100 then
      .arr [.null, .arr [.arr [.str "accessibility", .str "Accessibility",
        .arr [.arr [.null, .str "Wheelchair", .arr [.null, .arr [.arr [.num 1]]]]]]]]
    else .null))

/-- A decoded document with the name "Cafe Roma" at offset 11, the address text
"Cafe Roma, 123 Main St" at offset 18 and the owner identifier "abc123" at
path 57, 2. -/
def docCafe : List Node :=
  atOffset 6 (.arr (darrayOf 58 fun i =>
    if i = 11 then .str "Cafe Roma"
    else if i = 18 then .str "Cafe Roma, 123 Main St"
    else if i = 57 then .arr [.null, .str "The Owner", .str "abc123"]
    else .null))

/-- A decoded document with two about sections at path 100, 1: the first with a
named option, an option with an empty name and an entry that is not a
sequence, the second without options. -/
def docAboutTwo : List Node :=
  atOffset 6 (.arr (darrayOf 101 fun i =>
    if i = 100 then
      .arr [.null, .arr [
        .arr [.str "a", .str "Accessibility",
          .arr [.arr [.null, .str "Wheelchair"], .arr [.null, .str ""], .num 3]],
        .arr [.str "b", .str "Offerings", .arr []]]]
    else .null))

/-- A raw review entry of 15 elements by the reviewer "Ann", with two photo
entries at offset 14, the second of which holds an empty text. -/
def reviewAnn : Node :=
  .arr ([.arr [.null, .str "Ann", .str "https://img.example/ann"], .str "a week ago", .null,
      .str "Great", .num 5] ++
    atOffset 9 (.arr [.arr (atOffset 6 (.arr [.str "https://img.example/1"])),
      .arr (atOffset 6 (.arr [.str ""]))]))

/-- A decoded document whose raw review entries at path 52, 0 are `reviewAnn`, an
empty entry and a number. -/
def docReviews : List Node :=
  atOffset 6 (.arr (darrayOf 53 fun i =>
    if i = 52 then .arr [.arr [reviewAnn, .arr [], .num 7]] else .null))

/-- The ordering items `[[["Dash"], [null, null, ["https://order.example"]]]]`. -/
def itemsOrder : List Node :=
  [.arr [.arr [.str "Dash"], .arr [.null, .null, .arr [.str "https://order.example"]]]]

/-- A decoded document that holds `itemsOrder` at the alternate ordering path
75, 0, 0, 2 and nothing at the first ordering path 75, 0, 1, 2. -/
def docOrderFallback : List Node :=
  atOffset 6 (.arr (darrayOf 76 fun i =>
    if i = 75 then .arr [.arr [.arr [.null, .null, .arr itemsOrder]]] else .null))

/-- A primary data sub-sequence of 20 elements with the name "Cafe Roma" at
offset 11 and the address text "Cafe Roma, 123 Main St" at offset 18. -/
def darrayAddrShort : List Node :=
  darrayOf 20 fun i =>
    if i = 11 then .str "Cafe Roma"
    else if i = 18 then .str "Cafe Roma, 123 Main St"
    else .null

/-- The decoded document whose element 6 is `darrayAddrShort`. -/
def docAddrShort : List Node :=
  atOffset 6 (.arr darrayAddrShort)

/-- A primary data sub-sequence that holds `itemsOrder` at the alternate
ordering path 75, 0, 0, 2, nothing at the first ordering path 75, 0, 1, 2, and
at path 34, 1 the one-element day entry `["Mon"]`. -/
def darrayOrderBadDay : List Node :=
  darrayOf 76 fun i =>
    if i = 34 then .arr [.null, .arr [.arr [.str "Mon"]]]
    else if i = 75 then .arr [.arr [.arr [.null, .null, .arr itemsOrder]]]
    else .null

/-- The decoded document whose element 6 is `darrayOrderBadDay`. -/
def docOrderBadDay : List Node :=
  atOffset 6 (.arr darrayOrderBadDay)

/-! ## Lemmas on indexing and on the path extractor -/

theorem index_some_bounds {arr : List Node} {i : Int} {x : Node}
    (h : index arr i = some x) : 0 ≤ i ∧ i < (arr.length : Int) := by
  unfold index at h
  split at h
  · simp at h
  · rename_i hneg
    have hlt : i.toNat < arr.length := by
      by_contra hge
      rw [List.get?_eq_none.mpr (Nat.le_of_not_lt hge)] at h
      simp at h
    omega

theorem index_none_of_length_le {arr : List Node} {i : Int}
    (h : (arr.length : Int) ≤ i) : index arr i = none := by
  cases hx : index arr i with
  | none => rfl
  | some x => have := index_some_bounds hx; omega

theorem index_natCast (arr : List Node) (i : Nat) : index arr (i : Int) = arr.get? i := by
  simp [index]

/-- One turn of the loop that lands on a sequence continues inside it. -/
theorem getNthElementAndCast_step (T : Type) [Target T] {arr next : List Node} {i : Int}
    (j : Int) (rest : List Int) (h : index arr i = some (.arr next)) :
    getNthElementAndCast T arr (i :: j :: rest) = getNthElementAndCast T next (j :: rest) := by
  have hb := index_some_bounds h
  rw [getNthElementAndCast]
  simp only [ge_iff_le, h]
  rw [if_neg (by omega)]

/-- One turn of the loop that does not land on a sequence returns the zero value. -/
theorem getNthElementAndCast_stop (T : Type) [Target T] {arr : List Node} {i : Int}
    (j : Int) (rest : List Int) (hi : 0 ≤ i)
    (h : ∀ next, index arr i ≠ some (.arr next)) :
    getNthElementAndCast T arr (i :: j :: rest) = .ok Target.zero := by
  rw [getNthElementAndCast]
  split
  · rfl
  · rename_i hlt
    cases hx : index arr i with
    | none =>
      exfalso
      unfold index at hx
      rw [if_neg (by omega)] at hx
      rw [List.get?_eq_none] at hx
      omega
    | some x =>
      cases x with
      | arr next => exact absurd hx (h next)
      | _ => rfl

/-- On the empty container every non-empty path yields the zero value. -/
theorem getNthElementAndCast_nil (T : Type) [Target T] (i : Int) (rest : List Int)
    (hi : 0 ≤ i) : getNthElementAndCast T [] (i :: rest) = .ok Target.zero := by
  cases rest with
  | nil => simp [getNthElementAndCast]
  | cons j rest =>
    apply getNthElementAndCast_stop T j rest hi
    intro next
    simp [index]

/-- A single index that is within range reads and coerces the element. -/
theorem getNthElementAndCast_single (T : Type) [Target T] {arr : List Node} {i : Int}
    {x : Node} (h : index arr i = some x) :
    getNthElementAndCast T arr [i] = .ok (coerce T x) := by
  have hb := index_some_bounds h
  have hlen : arr.length ≠ 0 := by omega
  rw [getNthElementAndCast, if_neg hlen]
  simp only [h, coerce]
  cases (Target.assert x : Option T) <;> rfl

/-! ## The path extractor: claims C1 to C3 -/

/-- C1 (evaluation of the code at the failing input). On the one-element
container `["a"]` with the single index 1 and target `string`, the final read
`arr[indexes[0]]` is not guarded (only the empty container is), so
`getNthElementAndCast` raises an index-out-of-range fault instead of returning
the zero value. -/
theorem getNthElementAndCast_final_index_faults :
    getNthElementAndCast String [Node.str "a"] [1] = .error (.indexOutOfRange 1 1) := by
  rfl

/-- C2. If the indices `pre` lead through nested sequences to the container `c`
and the next index `i`, which is not the last one, is at least the length of `c`,
or lands on null, or lands on an element that is not a sequence, then
`getNthElementAndCast` returns the zero value of the target type without a
fault, whatever the remaining indices are. -/
theorem getNthElementAndCast_intermediate_mismatch (T : Type) [Target T]
    (arr : List Node) (pre : List Int) (i : Int) (rest : List Int) (c : List Node)
    (hrest : rest ≠ [])
    (hc : descend arr pre = some c)
    (hbad : (c.length : Int) ≤ i ∨ index c i = some .null ∨
      ∃ x, index c i = some x ∧ x.isArr = false) :
    getNthElementAndCast T arr (pre ++ i :: rest) = .ok Target.zero := by
  obtain ⟨j, rest, rfl⟩ := List.exists_cons_of_ne_nil hrest
  induction pre generalizing arr with
  | nil =>
    simp only [descend, Option.some.injEq] at hc
    subst hc
    simp only [List.nil_append]
    have hi : 0 ≤ i := by
      rcases hbad with h | h | ⟨x, h, _⟩
      · omega
      · exact (index_some_bounds h).1
      · exact (index_some_bounds h).1
    apply getNthElementAndCast_stop T j rest hi
    intro next hnext
    rcases hbad with h | h | ⟨x, h, hx⟩
    · rw [index_none_of_length_le h] at hnext
      exact Option.noConfusion hnext
    · rw [h] at hnext
      exact Node.noConfusion (Option.some.inj hnext)
    · rw [h] at hnext
      have := Option.some.inj hnext
      subst this
      simp [Node.isArr] at hx
  | cons p ps ih =>
    simp only [descend] at hc
    cases hp : index arr p with
    | none => simp [hp] at hc
    | some x =>
      cases x with
      | arr next =>
        simp only [hp] at hc
        have hstep : ∀ q qs, getNthElementAndCast T arr (p :: q :: qs) =
            getNthElementAndCast T next (q :: qs) :=
          fun q qs => getNthElementAndCast_step T q qs hp
        cases ps with
        | nil =>
          simp only [List.cons_append, List.nil_append]
          rw [hstep]
          exact ih next hc
        | cons q qs =>
          simp only [List.cons_append]
          rw [hstep]
          exact ih next hc
      | _ => simp [hp] at hc

/-- C2 witness: in `[["a"]]` the path 0, 3, 0 leaves the inner container at its
second index. -/
theorem getNthElementAndCast_intermediate_mismatch_witness :
    getNthElementAndCast String [Node.arr [Node.str "a"]] ([0] ++ 3 :: [0]) = .ok "" :=
  getNthElementAndCast_intermediate_mismatch String [Node.arr [Node.str "a"]] [0] 3 [0]
    [Node.str "a"] (by decide) rfl (Or.inl (by decide))

/-- C3. `getNthElementAndCast` equals "walk, then coerce": on the empty path it
returns the zero value of the target type, and when the reference walk along a
path reaches the element `v` (every index within range of the container it is
applied to, every intermediate element a sequence), it returns `v` if `v` has
the target type and the zero value otherwise. -/
theorem getNthElementAndCast_eq_walk_coerce (T : Type) [Target T]
    (arr : List Node) (path : List Int) (v : Node) (h : walk arr path = some v) :
    getNthElementAndCast T arr [] = .ok Target.zero ∧
    getNthElementAndCast T arr path = .ok (coerce T v) := by
  refine ⟨by simp [getNthElementAndCast], ?_⟩
  induction path generalizing arr with
  | nil => simp [walk] at h
  | cons i rest ih =>
    cases rest with
    | nil =>
      simp only [walk] at h
      exact getNthElementAndCast_single T h
    | cons j rest =>
      simp only [walk] at h
      cases hi : index arr i with
      | none => simp [hi] at h
      | some x =>
        cases x with
        | arr next =>
          simp only [hi] at h
          rw [getNthElementAndCast_step T j rest hi]
          exact ih next h
        | _ => simp [hi] at h

/-- C3 witness: in `[["a", 2]]` the path 0, 1 reaches the number 2, which is not
a string. -/
theorem getNthElementAndCast_eq_walk_coerce_witness :
    getNthElementAndCast String [Node.arr [Node.str "a", Node.num 2]] [] = .ok "" ∧
    getNthElementAndCast String [Node.arr [Node.str "a", Node.num 2]] [0, 1] =
      .ok (coerce String (Node.num 2)) :=
  getNthElementAndCast_eq_walk_coerce String [Node.arr [Node.str "a", Node.num 2]] [0, 1]
    (Node.num 2) rfl

/-! ## The record orchestrator: claims C4 and C5 -/

/-- With an empty primary data sub-sequence every statement of `populate` runs
on defaults; only the Cid, which is read from the top-level document, is open. -/
theorem populate_nil (isDigit : Char → Bool) (jd : List Node) :
    populate isDigit jd [] {} =
      match getNthElementAndCast String jd [25, 3, 0, 13, 0, 0, 1] with
      | .ok cid =>
        (.ok (), { Cid := cid, PopularTimes := some [],
                   ReviewsPerRating := some [(1, 0), (2, 0), (3, 0), (4, 0), (5, 0)] })
      | .error f => (.error f, { PopularTimes := some [] }) := by
  unfold populate
  generalize getNthElementAndCast String jd [25, 3, 0, 13, 0, 0, 1] = r
  cases r <;> rfl

/-- C4. When the decoded document has fewer than 7 top-level elements, or its
element 6 is null or is not a sequence, `EntryFromJSON` returns the error
"invalid json" together with the zero-value `Entry`. -/
theorem EntryFromJSON_malformed (isDigit : Char → Bool) (jd : List Node)
    (h : jd.length < 7 ∨ jd.get? 6 = some .null ∨
      ∃ x, jd.get? 6 = some x ∧ x.isArr = false) :
    EntryFromJSON isDigit (.ok jd) = ({}, some .invalidJSON) := by
  unfold EntryFromJSON
  simp only
  split
  · rfl
  · rename_i hlen
    rcases h with h | h | ⟨x, h, hx⟩
    · exact absurd h hlen
    · rw [h]
    · rw [h]
      cases x with
      | arr xs => simp [Node.isArr] at hx
      | _ => rfl

/-- C4 witness: a document whose element 6 is a number. -/
theorem EntryFromJSON_malformed_witness :
    EntryFromJSON Char.isDigit (.ok (atOffset 6 (.num 1))) = ({}, some .invalidJSON) :=
  EntryFromJSON_malformed Char.isDigit (atOffset 6 (.num 1))
    (Or.inr (Or.inr ⟨.num 1, rfl, rfl⟩))

/-- C5 (counterexample). The claim fails on two documents that pass the shape
check with a primary data sub-sequence shorter than every offset used on it:
with the one-element sub-sequence `[null]` the first read faults and
`EntryFromJSON` returns an error; with the empty sub-sequence and a Cid present
in the top-level document the error is nil and the text field `Cid` is not
empty. -/
theorem EntryFromJSON_short_primary_counterexample :
    (EntryFromJSON Char.isDigit (.ok docOneElement)).2 =
        some (.recovered (.indexOutOfRange 27 1)) ∧
    (EntryFromJSON Char.isDigit (.ok docCidOnly)).2 = none ∧
    (EntryFromJSON Char.isDigit (.ok docCidOnly)).1.Cid = "1234" := by
  refine ⟨?_, ?_, ?_⟩ <;> rfl

/-- C5 (amended). For a document that passes the shape check and whose primary
data sub-sequence is empty, if the Cid path of the top-level document is read
without a fault, `EntryFromJSON` returns a nil error and an `Entry` whose `Cid` is
the text read there, whose other text fields are empty and whose numeric fields
are zero; the popular-times map is empty and the five rating buckets are 0. -/
theorem EntryFromJSON_empty_primary (isDigit : Char → Bool) (jd : List Node)
    (cid : String) (h6 : jd.get? 6 = some (.arr []))
    (hcid : getNthElementAndCast String jd [25, 3, 0, 13, 0, 0, 1] = .ok cid) :
    EntryFromJSON isDigit (.ok jd) =
      ({ Cid := cid, PopularTimes := some [],
         ReviewsPerRating := some [(1, 0), (2, 0), (3, 0), (4, 0), (5, 0)] }, none) := by
  have hlen : ¬ jd.length < 7 := by
    intro hlt
    rw [List.get?_eq_none.mpr (by omega)] at h6
    exact Option.noConfusion h6
  unfold EntryFromJSON
  simp only [if_neg hlen, h6, populate_nil, hcid]

/-- C5 witness: the document `[null, null, null, null, null, null, []]`. -/
theorem EntryFromJSON_empty_primary_witness :
    EntryFromJSON Char.isDigit (.ok (atOffset 6 (.arr []))) =
      ({ Cid := "", PopularTimes := some [],
         ReviewsPerRating := some [(1, 0), (2, 0), (3, 0), (4, 0), (5, 0)] }, none) :=
  EntryFromJSON_empty_primary Char.isDigit (atOffset 6 (.arr [])) "" rfl rfl

/-! ## Popular times: claim C6 -/

/-- C6 (evaluation of the code at failing inputs). On a histogram whose only
hour entry has one element, `getPopularTimes` raises an index-out-of-range
fault at `t[1]`; on a histogram whose day entry has a text in place of the
weekday number, it returns a populated map, the hours being stored under the
empty weekday name. Neither is the nil map. -/
theorem getPopularTimes_malformed_not_nil :
    getPopularTimes docShortHour = .error (.indexOutOfRange 1 1) ∧
    getPopularTimes docTextWeekday = .ok (some [("", [(1, 2)])]) := by
  constructor <;> rfl

/-! ## Opening hours: lemmas -/

theorem foldl_digit_iff (isDigit : Char → Bool) (l : List Char) (b : Bool) :
    l.foldl (fun isOpen char => if isDigit char then true else isOpen) b = true ↔
      b = true ∨ ∃ c ∈ l, isDigit c = true := by
  induction l generalizing b with
  | nil => simp
  | cons c l ih =>
    rw [List.foldl_cons, ih]
    cases hc : isDigit c <;> simp [hc]

theorem hasDigit_iff (isDigit : Char → Bool) (s : String) :
    hasDigit isDigit s = true ↔ ∃ c ∈ s.data, isDigit c = true := by
  unfold hasDigit
  rw [foldl_digit_iff]
  simp

/-- The text `OpenHours` computed from the fragment list of a day entry. -/
theorem getHoursItem_ok {isDigit : Char → Bool} {item : Node} {w : WorkingHours}
    (h : getHoursItem isDigit item = .ok w) :
    ∃ seq day timesI, item = .arr seq ∧
      getNthElementAndCast String seq [0] = .ok day ∧
      getNthElementAndCast (List Node) seq [1] = .ok timesI ∧
      w = { Day := day,
            OpenHours :=
              removeAll '"' (removeAll '\u202f' (joinAll (timesI.map (coerce String)))),
            Open := hasDigit isDigit
              (removeAll '"' (removeAll '\u202f' (joinAll (timesI.map (coerce String))))) } := by
  unfold getHoursItem at h
  cases item with
  | arr seq =>
    simp only [mustArr] at h
    cases hd : getNthElementAndCast String seq [0] with
    | error f => simp [hd] at h
    | ok day =>
      cases ht : getNthElementAndCast (List Node) seq [1] with
      | error f => simp [hd, ht] at h
      | ok timesI =>
        simp only [hd, ht, Except.ok.injEq] at h
        exact ⟨seq, day, timesI, rfl, hd, ht, h.symm⟩
  | _ => simp [mustArr] at h

/-- A day entry that is a sequence of length other than one yields a record. -/
theorem getHoursItem_total (isDigit : Char → Bool) (seq : List Node) (h : seq.length ≠ 1) :
    ∃ w, getHoursItem isDigit (.arr seq) = .ok w := by
  unfold getHoursItem
  simp only [mustArr]
  match seq, h with
  | [], _ => exact ⟨_, rfl⟩
  | x :: y :: rest, _ =>
    rw [@getNthElementAndCast_single String _ (x :: y :: rest) 0 x rfl,
      @getNthElementAndCast_single (List Node) _ (x :: y :: rest) 1 y rfl]
    exact ⟨_, rfl⟩

theorem getHoursLoop_mem {isDigit : Char → Bool} {items : List Node}
    {acc recs : List WorkingHours} (h : getHoursLoop isDigit items acc = .ok recs)
    {w : WorkingHours} (hw : w ∈ recs) :
    w ∈ acc ∨ ∃ it ∈ items, getHoursItem isDigit it = .ok w := by
  induction items generalizing acc with
  | nil =>
    simp only [getHoursLoop, Except.ok.injEq] at h
    subst h
    exact Or.inl hw
  | cons it rest ih =>
    simp only [getHoursLoop] at h
    cases hit : getHoursItem isDigit it with
    | error f => simp [hit] at h
    | ok w' =>
      simp only [hit] at h
      rcases ih h with hacc | ⟨it', hmem, hit'⟩
      · rcases List.mem_append.mp hacc with h1 | h1
        · exact Or.inl h1
        · simp only [List.mem_singleton] at h1
          subst h1
          exact Or.inr ⟨it, List.mem_cons_self _ _, hit⟩
      · exact Or.inr ⟨it', List.mem_cons_of_mem _ hmem, hit'⟩

theorem getHoursLoop_total (isDigit : Char → Bool) (items : List Node)
    (acc : List WorkingHours)
    (hshape : ∀ it ∈ items, ∃ seq, it = .arr seq ∧ seq.length ≠ 1) :
    ∃ recs, getHoursLoop isDigit items acc = .ok (acc ++ recs) ∧
      List.Forall₂ (fun it w => getHoursItem isDigit it = .ok w) items recs := by
  induction items generalizing acc with
  | nil => exact ⟨[], by simp [getHoursLoop], List.Forall₂.nil⟩
  | cons it rest ih =>
    obtain ⟨seq, rfl, hlen⟩ := hshape it (List.mem_cons_self _ _)
    obtain ⟨w, hw⟩ := getHoursItem_total isDigit seq hlen
    obtain ⟨recs, hrecs, hall⟩ := ih (acc ++ [w])
      (fun it' h' => hshape it' (List.mem_cons_of_mem _ h'))
    refine ⟨w :: recs, ?_, List.Forall₂.cons hw hall⟩
    simp only [getHoursLoop, hw, hrecs, List.append_assoc, List.singleton_append]
/-! ## Opening hours: claims C7 to C9 -/

/-- C7 (counterexample). Of the two day entries `["Mon", [...]]` and `[]`, the
second is too short to hold a fragment list, yet it is not omitted: `getHours`
returns a blank closed record for it. A day entry that is not a sequence is not
omitted either, the unchecked assertion `item.([]any)` faults; and so does the
read of the fragment list in a one-element day entry. -/
theorem getHours_malformed_entry_counterexample :
    getHours Char.isDigit (docHours itemsMonday) = .ok [recMonday, {}] ∧
    getHours Char.isDigit (docHours [.str "Mon"]) = .error .interfaceConversion ∧
    getHours Char.isDigit (docHours [.arr [.str "Mon"]]) =
      .error (.indexOutOfRange 1 1) := by
  refine ⟨?_, ?_, ?_⟩ <;> rfl

/-- C7 (amended). When every per-day entry at path 34, 1 is a sequence that is
empty or has at least two elements, `getHours` returns without a fault exactly one
record per entry, in input order, none omitted, and the record of an entry is
the one the loop body computes from that entry alone. -/
theorem getHours_one_record_per_entry (isDigit : Char → Bool) (darray items : List Node)
    (hitems : getNthElementAndCast (List Node) darray [34, 1] = .ok items)
    (hshape : ∀ it ∈ items, ∃ seq, it = .arr seq ∧ seq.length ≠ 1) :
    ∃ recs, getHours isDigit darray = .ok recs ∧ recs.length = items.length ∧
      List.Forall₂ (fun it w => getHoursItem isDigit it = .ok w) items recs := by
  obtain ⟨recs, hrecs, hall⟩ := getHoursLoop_total isDigit items [] hshape
  refine ⟨recs, ?_, hall.length_eq.symm, hall⟩
  unfold getHours
  simp only [hitems, hrecs, List.nil_append]

/-- C7 witness: the two entries of `itemsMonday`. -/
theorem getHours_one_record_per_entry_witness :
    ∃ recs, getHours Char.isDigit (docHours itemsMonday) = .ok recs ∧
      recs.length = itemsMonday.length ∧
      List.Forall₂ (fun it w => getHoursItem Char.isDigit it = .ok w) itemsMonday recs :=
  getHours_one_record_per_entry Char.isDigit (docHours itemsMonday) itemsMonday rfl
    (fun it hit => by
      simp only [itemsMonday, List.mem_cons, List.mem_singleton, List.not_mem_nil,
        or_false] at hit
      rcases hit with rfl | rfl
      · exact ⟨_, rfl, by decide⟩
      · exact ⟨_, rfl, by decide⟩)

/-- C8. In every record that `getHours` produces, `Open` is true exactly when the
text `OpenHours` holds a character that `unicode.IsDigit` accepts. -/
theorem getHours_open_iff_digit (isDigit : Char → Bool) (darray : List Node)
    (recs : List WorkingHours) (h : getHours isDigit darray = .ok recs)
    (w : WorkingHours) (hw : w ∈ recs) :
    w.Open = true ↔ ∃ c ∈ w.OpenHours.data, isDigit c = true := by
  unfold getHours at h
  cases hitems : getNthElementAndCast (List Node) darray [34, 1] with
  | error f => simp [hitems] at h
  | ok items =>
    simp only [hitems] at h
    rcases getHoursLoop_mem h hw with hnil | ⟨it, _, hit⟩
    · exact absurd hnil (List.not_mem_nil w)
    · obtain ⟨seq, day, timesI, _, _, _, rfl⟩ := getHoursItem_ok hit
      exact hasDigit_iff isDigit _

/-- C8 witness: the record of Monday in `itemsMonday`. -/
theorem getHours_open_iff_digit_witness :
    recMonday.Open = true ↔ ∃ c ∈ recMonday.OpenHours.data, Char.isDigit c = true :=
  getHours_open_iff_digit Char.isDigit (docHours itemsMonday) [recMonday, {}] rfl
    recMonday (List.mem_cons_self _ _)

/-- C9 (counterexample). The fragment `9<nnbsp>am - "5<nnbsp>pm"` gives the text
`9am - 5pm`: the two ordinary spaces U+0020, whitespace characters, are kept. -/
theorem getHours_openHours_keeps_space :
    getHours Char.isDigit (docHours itemsMonday) = .ok [recMonday, {}] ∧
    ' ' ∈ recMonday.OpenHours.data ∧ unicodeIsSpace ' ' = true := by
  refine ⟨rfl, by decide, by decide⟩

/-- C9 (amended). In every record that `getHours` produces, `OpenHours` is the
concatenation of the text fragments of its day entry (an element that is not a
text counts as empty) from which every narrow no-break space U+202F and every
double-quote character is removed, all other characters, the ordinary space
and other whitespace included, being kept in order; so it holds no U+202F and
no double quote. -/
theorem getHours_openHours_strips_nnbsp_and_quote (isDigit : Char → Bool)
    (darray items : List Node) (recs : List WorkingHours)
    (hitems : getNthElementAndCast (List Node) darray [34, 1] = .ok items)
    (h : getHours isDigit darray = .ok recs) (w : WorkingHours) (hw : w ∈ recs) :
    '\u202f' ∉ w.OpenHours.data ∧ '"' ∉ w.OpenHours.data ∧
    ∃ seq frags, Node.arr seq ∈ items ∧
      getNthElementAndCast (List Node) seq [1] = .ok frags ∧
      w.OpenHours.data =
        ((frags.map fun f => (coerce String f).data).flatten).filter
          (fun c => c != '"' && c != '\u202f') := by
  unfold getHours at h
  simp only [hitems] at h
  rcases getHoursLoop_mem h hw with hnil | ⟨it, hmem, hit⟩
  · exact absurd hnil (List.not_mem_nil w)
  · obtain ⟨seq, day, timesI, rfl, _, hfrags, rfl⟩ := getHoursItem_ok hit
    have hdata :
        (removeAll '"' (removeAll '\u202f' (joinAll (timesI.map (coerce String))))).data =
        ((timesI.map fun f => (coerce String f).data).flatten).filter
          (fun c => c != '"' && c != '\u202f') := by
      simp only [removeAll, joinAll, List.filter_filter, List.map_map]
      rfl
    refine ⟨?_, ?_, seq, timesI, hmem, hfrags, hdata⟩
    · intro hc
      rw [hdata] at hc
      have := (List.mem_filter.mp hc).2
      simp at this
    · intro hc
      rw [hdata] at hc
      have := (List.mem_filter.mp hc).2
      simp at this

/-- C9 witness: the record of Monday in `itemsMonday`. -/
theorem getHours_openHours_strips_nnbsp_and_quote_witness :
    '\u202f' ∉ recMonday.OpenHours.data ∧ '"' ∉ recMonday.OpenHours.data ∧
    ∃ seq frags, Node.arr seq ∈ itemsMonday ∧
      getNthElementAndCast (List Node) seq [1] = .ok frags ∧
      recMonday.OpenHours.data =
        ((frags.map fun f => (coerce String f).data).flatten).filter
          (fun c => c != '"' && c != '\u202f') :=
  getHours_openHours_strips_nnbsp_and_quote Char.isDigit (docHours itemsMonday) itemsMonday
    [recMonday, {}] rfl rfl recMonday (List.mem_cons_self _ _)

/-! ## Link and source pairs: claim C10 -/

theorem range_map_get? {α : Type} (l : List α) :
    (List.range l.length).map (fun i => l.get? i) = l.map some := by
  apply List.ext_getElem?
  intro n
  by_cases h : n < l.length
  · simp [h, List.getElem?_range]
  · have h1 : l.length ≤ n := Nat.le_of_not_lt h
    have h2 : (List.range l.length).length ≤ n := by simpa using h1
    simp [List.getElem?_eq_none h1, List.getElem?_eq_none h2]

/-- Inside the loop of `getLinkSource` the item at an index in range is the
element there, read as a sequence. -/
theorem getNthElementAndCast_loop_index (T : Type) [Target T] {arr : List Node} {i : Nat}
    {it : Node} (h : arr.get? i = some it) :
    getNthElementAndCast T arr [(i : Int)] = .ok (coerce T it) :=
  getNthElementAndCast_single T (by rw [index_natCast]; exact h)

theorem range_filterMap_get? {α : Type} (l : List α) :
    (List.range l.length).filterMap (fun i => l.get? i) = l := by
  have h := congrArg (List.filterMap id) (range_map_get? l)
  rw [List.filterMap_map, List.filterMap_map] at h
  rw [show (fun i => l.get? i) = id ∘ (fun i => l.get? i) from rfl, h]
  exact List.filterMap_some l

theorem getLinkSourceLoop_eq (arr : List Node) (source link : List Int)
    (lk sr : Node → String)
    (h : ∀ it ∈ arr,
      getNthElementAndCast String (coerce (List Node) it) source = .ok (sr it) ∧
      getNthElementAndCast String (coerce (List Node) it) link = .ok (lk it))
    (is : List Nat) (his : ∀ i ∈ is, i < arr.length) (acc : List LinkSource) :
    getLinkSourceLoop { arr := arr, source := source, link := link } is acc =
      .ok (acc ++ ((is.filterMap fun i => arr.get? i).map fun it =>
          ({ Link := lk it, Source := sr it } : LinkSource)).filter
        (fun el => decide (el.Link ≠ "" ∧ el.Source ≠ ""))) := by
  induction is generalizing acc with
  | nil => simp [getLinkSourceLoop]
  | cons i is ih =>
    have hi : i < arr.length := his i (List.mem_cons_self _ _)
    obtain ⟨it, hget, hmem⟩ : ∃ it, arr.get? i = some it ∧ it ∈ arr :=
      ⟨arr.get ⟨i, hi⟩, List.get?_eq_get hi, List.get_mem arr i hi⟩
    obtain ⟨hs, hl⟩ := h it hmem
    have his' : ∀ j ∈ is, j < arr.length := fun j hj => his j (List.mem_cons_of_mem _ hj)
    rw [getLinkSourceLoop]
    simp only [getNthElementAndCast_loop_index (List Node) hget, hs, hl]
    rw [List.filterMap_cons_some hget, List.map_cons]
    by_cases hk : lk it ≠ "" ∧ sr it ≠ ""
    · rw [if_pos hk, ih his', List.filter_cons_of_pos (by simpa using hk),
        List.append_assoc, List.singleton_append]
    · rw [if_neg hk, ih his', List.filter_cons_of_neg (by simpa using hk)]

/-- C10. When the source and the link of every item of `arr` are extracted along
the two relative paths without a fault (`sr it` and `lk it` being the texts
extracted from the item `it`), `getLinkSource` returns, in input order, exactly
the pairs of the items whose link and source are both non-empty; every returned
pair has a non-empty `Link` and a non-empty `Source`, and the result is not
longer than `arr`. -/
theorem getLinkSource_keeps_complete_pairs (arr : List Node) (source link : List Int)
    (lk sr : Node → String)
    (h : ∀ it ∈ arr,
      getNthElementAndCast String (coerce (List Node) it) source = .ok (sr it) ∧
      getNthElementAndCast String (coerce (List Node) it) link = .ok (lk it)) :
    ∃ res, getLinkSource { arr := arr, source := source, link := link } = .ok res ∧
      res = (arr.map fun it => ({ Link := lk it, Source := sr it } : LinkSource)).filter
        (fun el => decide (el.Link ≠ "" ∧ el.Source ≠ "")) ∧
      (∀ el ∈ res, el.Link ≠ "" ∧ el.Source ≠ "") ∧
      res.length ≤ arr.length := by
  refine ⟨_, ?_, rfl, ?_, ?_⟩
  · unfold getLinkSource
    rw [getLinkSourceLoop_eq arr source link lk sr h _
      (fun i hi => List.mem_range.mp hi) [], range_filterMap_get?, List.nil_append]
  · intro el hel
    simpa using (List.mem_filter.mp hel).2
  · exact (List.length_filter_le _ _).trans (by simp)

/-- C10 witness: of the three items of `itemsLinks` only the first has both a
link and a source. -/
theorem getLinkSource_keeps_complete_pairs_witness :
    ∃ res, getLinkSource { arr := itemsLinks, source := [1], link := [0] } = .ok res ∧
      res = (itemsLinks.map fun it =>
          ({ Link := textAt [0] it, Source := textAt [1] it } : LinkSource)).filter
        (fun el => decide (el.Link ≠ "" ∧ el.Source ≠ "")) ∧
      (∀ el ∈ res, el.Link ≠ "" ∧ el.Source ≠ "") ∧
      res.length ≤ itemsLinks.length :=
  getLinkSource_keeps_complete_pairs itemsLinks [1] [0] (textAt [0]) (textAt [1])
    (fun it hit => by
      simp only [itemsLinks, List.mem_cons, List.mem_singleton, List.not_mem_nil,
        or_false] at hit
      rcases hit with rfl | rfl | rfl <;> exact ⟨rfl, rfl⟩)

/-! ## Validation: claim C16 -/

/-- C16. `Validate` returns the nil error exactly when `Title` and `Category` are
both non-empty. -/
theorem Validate_none_iff (e : Entry) :
    e.Validate = none ↔ e.Title ≠ "" ∧ e.Category ≠ "" := by
  unfold Entry.Validate
  by_cases ht : e.Title = ""
  · simp [ht]
  · by_cases hc : e.Category = ""
    · simp [ht, hc]
    · simp [ht, hc]

/-! ## Errors and the returned record: claims C18 and C20 -/

/-- C18 (evaluation of the code at the failing input). The about option named
"Wheelchair" holds the number 1 at its relative path 2, 1, 0, 0; the flag is read
with target `int`, which no decoded number has, so the retained option has
`Enabled = false`. -/
theorem EntryFromJSON_enabled_flag_lost :
    (EntryFromJSON Char.isDigit (.ok docAboutEnabled)).2 = none ∧
    (EntryFromJSON Char.isDigit (.ok docAboutEnabled)).1.About =
      [{ ID := "accessibility", Name := "Accessibility",
         Options := [{ Name := "Wheelchair", Enabled := false }] }] := by
  constructor <;> rfl

/-- C20 (counterexample). In `docFaultAfterLink` the link is assigned before
`getHours` faults on a day entry that is not a sequence: `EntryFromJSON` returns
the error of the recovered fault together with an `Entry` whose `Link` is set. -/
theorem EntryFromJSON_partial_entry_with_error :
    (EntryFromJSON Char.isDigit (.ok docFaultAfterLink)).2 =
      some (.recovered .interfaceConversion) ∧
    (EntryFromJSON Char.isDigit (.ok docFaultAfterLink)).1.Link =
      "https://maps.example/place" := by
  constructor <;> rfl

/-- C20 (amended). Whenever `EntryFromJSON` returns an error that was not built
from a recovered fault, that is the decoding error or "invalid json", the
returned `Entry` is the zero-value `Entry`; when the error was built from a
recovered fault, the returned `Entry` is the record as the statements run
before the fault have populated it. -/
theorem EntryFromJSON_error_entry (isDigit : Char → Bool)
    (decoded : Except String (List Node)) (entry : Entry) (err : GoError)
    (h : EntryFromJSON isDigit decoded = (entry, some err)) :
    ((∀ f, err ≠ .recovered f) → entry = {}) ∧
    (∀ f, err = .recovered f → ∃ jd darray, decoded = .ok jd ∧
      jd.get? 6 = some (.arr darray) ∧
      populate isDigit jd darray {} = (.error f, entry)) := by
  unfold EntryFromJSON at h
  split at h
  · have he : ({} : Entry) = entry := congrArg Prod.fst h
    have herr : some (GoError.unmarshal _) = some err := congrArg Prod.snd h
    refine ⟨fun _ => he.symm, fun f hf => ?_⟩
    rw [hf] at herr
    exact GoError.noConfusion (Option.some.inj herr)
  · rename_i jd
    split at h
    · have he : ({} : Entry) = entry := congrArg Prod.fst h
      have herr : some GoError.invalidJSON = some err := congrArg Prod.snd h
      refine ⟨fun _ => he.symm, fun f hf => ?_⟩
      rw [hf] at herr
      exact GoError.noConfusion (Option.some.inj herr)
    · split at h
      · rename_i darray hd
        split at h
        · exact absurd (congrArg Prod.snd h) (fun h' => Option.noConfusion h')
        · rename_i f e he
          have h1 : e = entry := congrArg Prod.fst h
          have h2 : some (GoError.recovered f) = some err := congrArg Prod.snd h
          subst h1
          have h3 : err = GoError.recovered f := (Option.some.inj h2).symm
          subst h3
          refine ⟨fun hnot => absurd rfl (hnot f), fun f' hf' => ?_⟩
          have : f = f' := GoError.recovered.inj hf'
          subst this
          exact ⟨jd, darray, rfl, hd, he⟩
      · have he : ({} : Entry) = entry := congrArg Prod.fst h
        have herr : some GoError.invalidJSON = some err := congrArg Prod.snd h
        refine ⟨fun _ => he.symm, fun f hf => ?_⟩
        rw [hf] at herr
        exact GoError.noConfusion (Option.some.inj herr)

/-- C20 witness: the document `docFaultAfterLink`, on which a fault is recovered. -/
theorem EntryFromJSON_error_entry_witness :
    ((∀ f, GoError.recovered Fault.interfaceConversion ≠ .recovered f) →
      (EntryFromJSON Char.isDigit (.ok docFaultAfterLink)).1 = {}) ∧
    (∀ f, GoError.recovered Fault.interfaceConversion = .recovered f →
      ∃ jd darray, (Except.ok docFaultAfterLink : Except String (List Node)) = .ok jd ∧
        jd.get? 6 = some (.arr darray) ∧
        populate Char.isDigit jd darray {} =
          (.error f, (EntryFromJSON Char.isDigit (.ok docFaultAfterLink)).1)) :=
  EntryFromJSON_error_entry Char.isDigit (.ok docFaultAfterLink) _ _ rfl

/-! ## The record orchestrator: a run without a fault -/

theorem bind_ok {α β : Type} {m : Build α} {f : α → Build β} {e e' : Entry} {b : β}
    (h : (m >>= f) e = (.ok b, e')) : ∃ a e1, m e = (.ok a, e1) ∧ f a e1 = (.ok b, e') := by
  cases hm : m e with
  | mk r e1 =>
    cases r with
    | error x =>
      have h2 : (m >>= f) e = (.error x, e1) := by
        show (match m e with
          | (.ok a, e') => f a e'
          | (.error x, e') => (.error x, e')) = _
        rw [hm]
      rw [h2] at h
      exact absurd (congrArg Prod.fst h) (fun h' => Except.noConfusion h')
    | ok a =>
      refine ⟨a, e1, rfl, ?_⟩
      have h2 : (m >>= f) e = f a e1 := by
        show (match m e with
          | (.ok a, e') => f a e'
          | (.error x, e') => (.error x, e')) = _
        rw [hm]
      rw [← h2]; exact h

theorem bind_call_ok {α β : Type} {v : Except Fault α} {f : α → Build β} {e e' : Entry}
    {b : β} (h : (call v >>= f) e = (.ok b, e')) : ∃ a, v = .ok a ∧ f a e = (.ok b, e') := by
  cases v with
  | error x => exact absurd (congrArg Prod.fst h) (fun h' => Except.noConfusion h')
  | ok a => exact ⟨a, rfl, h⟩

theorem bind_ite_ok {α β : Type} {c : Prop} {inst : Decidable c} {v : Except Fault α} {x : α}
    {k : α → Build β} {e e' : Entry} {b : β}
    (h : (@ite _ c inst (call v >>= fun y => k y) (pure x >>= fun y => k y)) e = (.ok b, e')) :
    ∃ a, (@ite _ c inst v (.ok x)) = .ok a ∧ k a e = (.ok b, e') := by
  by_cases hc : c
  · rw [if_pos hc] at h ⊢
    exact bind_call_ok h
  · rw [if_neg hc] at h ⊢
    exact ⟨x, rfl, h⟩

theorem bind_update_ok {β : Type} {g : Entry → Entry} {f : Unit → Build β} {e e' : Entry}
    {b : β} (h : (update g >>= f) e = (.ok b, e')) : f () (update g e).2 = (.ok b, e') := h

theorem forEach_about_ok (aboutI : List Node) (is : List Nat) (e e' : Entry)
    (h : forEach is (fun i => call (aboutSection aboutI i) >>= fun about =>
      update fun e => { e with About := e.About ++ [about] }) e = (.ok (), e')) :
    ∃ secs, List.Forall₂ (fun i a => aboutSection aboutI i = .ok a) is secs ∧
      e' = (update (fun e => { e with About := e.About ++ secs }) e).2 := by
  induction is generalizing e with
  | nil =>
    refine ⟨[], List.Forall₂.nil, ?_⟩
    have h1 : e = e' := congrArg Prod.snd h
    subst h1
    simp [update]
  | cons i is ih =>
    rw [forEach] at h
    obtain ⟨_, e1, hbody, hrest⟩ := bind_ok h
    obtain ⟨a, ha, hupd⟩ := bind_call_ok hbody
    have he1 : e1 = (update (fun e => { e with About := e.About ++ [a] }) e).2 :=
      (congrArg Prod.snd hupd).symm
    subst he1
    obtain ⟨secs, hsecs, rfl⟩ := ih _ hrest
    refine ⟨a :: secs, List.Forall₂.cons ha hsecs, ?_⟩
    simp [update]

theorem forEach_review_ok (reviewsI : List Node) (is : List Nat) (e e' : Entry)
    (h : forEach is (fun i => call (reviewEntry reviewsI i) >>= fun review =>
      match review with
      | none => pure ()
      | some r => update fun e => { e with UserReviews := e.UserReviews ++ [r] }) e =
        (.ok (), e')) :
    ∃ revs, List.Forall₂ (fun i r => reviewEntry reviewsI i = .ok r) is revs ∧
      e' = (update (fun e => { e with UserReviews := e.UserReviews ++ revs.filterMap id }) e).2 := by
  induction is generalizing e with
  | nil =>
    refine ⟨[], List.Forall₂.nil, ?_⟩
    have h1 : e = e' := congrArg Prod.snd h
    subst h1
    simp [update]
  | cons i is ih =>
    rw [forEach] at h
    obtain ⟨_, e1, hbody, hrest⟩ := bind_ok h
    obtain ⟨r, hr, hupd⟩ := bind_call_ok hbody
    cases r with
    | none =>
      have he1 : e1 = e := (congrArg Prod.snd hupd).symm
      subst he1
      obtain ⟨revs, hrevs, rfl⟩ := ih _ hrest
      exact ⟨none :: revs, List.Forall₂.cons hr hrevs, by simp [update]⟩
    | some r =>
      have he1 : e1 = (update (fun e => { e with UserReviews := e.UserReviews ++ [r] }) e).2 :=
        (congrArg Prod.snd hupd).symm
      subst he1
      obtain ⟨revs, hrevs, rfl⟩ := ih _ hrest
      exact ⟨some r :: revs, List.Forall₂.cons hr hrevs, by simp [update]⟩


/-- What a run of `populate` without a fault has read and assigned, for the
fields that the claims on the record speak about. -/
theorem populate_ok {isDigit : Char → Bool} {jd darray : List Node} {entry : Entry}
    (h : populate isDigit jd darray {} = (.ok (), entry)) :
    ∃ title address orderOnlineFirst orderOnlineI ownerID aboutI reviewsI revs,
      getNthElementAndCast String darray [11] = .ok title ∧
      getNthElementAndCast String darray [18] = .ok address ∧
      entry.Title = title ∧
      entry.Address = TrimSpace (TrimPrefix address (title ++ ",")) ∧
      getNthElementAndCast (List Node) darray [75, 0, 1, 2] = .ok orderOnlineFirst ∧
      (if orderOnlineFirst.length = 0 then
          getNthElementAndCast (List Node) darray [75, 0, 0, 2]
        else .ok orderOnlineFirst) = .ok orderOnlineI ∧
      getLinkSource { arr := orderOnlineI, link := [1, 2, 0], source := [0, 0] } =
        .ok entry.OrderOnline ∧
      getNthElementAndCast String darray [57, 2] = .ok ownerID ∧
      entry.Owner.ID = ownerID ∧
      entry.Owner.Link =
        (if ownerID ≠ "" then "https://www.google.com/maps/contrib/" ++ ownerID else "") ∧
      getNthElementAndCast (List Node) darray [100, 1] = .ok aboutI ∧
      List.Forall₂ (fun i a => aboutSection aboutI i = .ok a) (List.range aboutI.length)
        entry.About ∧
      getNthElementAndCast (List Node) darray [52, 0] = .ok reviewsI ∧
      List.Forall₂ (fun i r => reviewEntry reviewsI i = .ok r) (List.range reviewsI.length)
        revs ∧
      entry.UserReviews = revs.filterMap id := by
  unfold populate at h
  obtain ⟨link, hlink, h⟩ := bind_call_ok h
  replace h := bind_update_ok h
  obtain ⟨title, htitle, h⟩ := bind_call_ok h
  replace h := bind_update_ok h
  obtain ⟨categoriesI, hcategoriesI, h⟩ := bind_call_ok h
  replace h := bind_update_ok h
  replace h := bind_update_ok h
  obtain ⟨address, haddress, h⟩ := bind_call_ok h
  replace h := bind_update_ok h
  obtain ⟨workingHours, hworkingHours, h⟩ := bind_call_ok h
  replace h := bind_update_ok h
  obtain ⟨popularTimes, hpopularTimes, h⟩ := bind_call_ok h
  replace h := bind_update_ok h
  obtain ⟨webSite, hwebSite, h⟩ := bind_call_ok h
  replace h := bind_update_ok h
  obtain ⟨phone, hphone, h⟩ := bind_call_ok h
  replace h := bind_update_ok h
  obtain ⟨plusCode, hplusCode, h⟩ := bind_call_ok h
  replace h := bind_update_ok h
  obtain ⟨reviewCount, hreviewCount, h⟩ := bind_call_ok h
  replace h := bind_update_ok h
  obtain ⟨reviewRating, hreviewRating, h⟩ := bind_call_ok h
  replace h := bind_update_ok h
  obtain ⟨latitude, hlatitude, h⟩ := bind_call_ok h
  replace h := bind_update_ok h
  obtain ⟨longtitude, hlongtitude, h⟩ := bind_call_ok h
  replace h := bind_update_ok h
  obtain ⟨cid, hcid, h⟩ := bind_call_ok h
  replace h := bind_update_ok h
  obtain ⟨status, hstatus, h⟩ := bind_call_ok h
  replace h := bind_update_ok h
  obtain ⟨description, hdescription, h⟩ := bind_call_ok h
  replace h := bind_update_ok h
  obtain ⟨reviewsLink, hreviewsLink, h⟩ := bind_call_ok h
  replace h := bind_update_ok h
  obtain ⟨thumbnail, hthumbnail, h⟩ := bind_call_ok h
  replace h := bind_update_ok h
  obtain ⟨timezone, htimezone, h⟩ := bind_call_ok h
  replace h := bind_update_ok h
  obtain ⟨priceRange, hpriceRange, h⟩ := bind_call_ok h
  replace h := bind_update_ok h
  obtain ⟨dataID, hdataID, h⟩ := bind_call_ok h
  replace h := bind_update_ok h
  obtain ⟨imagesI, himagesI, h⟩ := bind_call_ok h
  obtain ⟨items, hitems, h⟩ := bind_call_ok h
  replace h := bind_update_ok h
  obtain ⟨reservationsI, hreservationsI, h⟩ := bind_call_ok h
  obtain ⟨reservations, hreservations, h⟩ := bind_call_ok h
  replace h := bind_update_ok h
  obtain ⟨orderOnlineFirst, horderOnlineFirst, h⟩ := bind_call_ok h
  obtain ⟨orderOnlineI, horderOnlineI, h⟩ := bind_ite_ok h
  obtain ⟨orderOnline, horderOnline, h⟩ := bind_call_ok h
  replace h := bind_update_ok h
  obtain ⟨servicesLink, hservicesLink, h⟩ := bind_call_ok h
  obtain ⟨servicesSource, hservicesSource, h⟩ := bind_call_ok h
  replace h := bind_update_ok h
  obtain ⟨ownerID, hownerID, h⟩ := bind_call_ok h
  obtain ⟨ownerName, hownerName, h⟩ := bind_call_ok h
  replace h := bind_update_ok h
  replace h := bind_update_ok h
  obtain ⟨borough, hborough, h⟩ := bind_call_ok h
  obtain ⟨street, hstreet, h⟩ := bind_call_ok h
  obtain ⟨city, hcity, h⟩ := bind_call_ok h
  obtain ⟨postalCode, hpostalCode, h⟩ := bind_call_ok h
  obtain ⟨state, hstate, h⟩ := bind_call_ok h
  obtain ⟨country, hcountry, h⟩ := bind_call_ok h
  replace h := bind_update_ok h
  obtain ⟨aboutI, haboutI, h⟩ := bind_call_ok h
  obtain ⟨_, e1, hloop, h⟩ := bind_ok h
  obtain ⟨secs, hsecs, rfl⟩ := forEach_about_ok _ _ _ _ hloop
  obtain ⟨r1, hr1, h⟩ := bind_call_ok h
  obtain ⟨r2, hr2, h⟩ := bind_call_ok h
  obtain ⟨r3, hr3, h⟩ := bind_call_ok h
  obtain ⟨r4, hr4, h⟩ := bind_call_ok h
  obtain ⟨r5, hr5, h⟩ := bind_call_ok h
  replace h := bind_update_ok h
  obtain ⟨reviewsI, hreviewsI, h⟩ := bind_call_ok h
  obtain ⟨revs, hrevs, rfl⟩ := forEach_review_ok _ _ _ _ h
  refine ⟨title, address, orderOnlineFirst, orderOnlineI, ownerID, aboutI, reviewsI, revs,
    htitle, haddress, rfl, rfl, horderOnlineFirst, horderOnlineI, horderOnline, hownerID, ?_, ?_,
    haboutI, ?_, hreviewsI, hrevs, ?_⟩
  · show (if ownerID ≠ "" then _ else _ : Owner).ID = ownerID
    split <;> rfl
  · show (if ownerID ≠ "" then _ else _ : Owner).Link = _
    split <;> rfl
  · exact hsecs
  · show ([] : List Review) ++ _ = _
    exact List.nil_append _

/-- A return of `EntryFromJSON` with a nil error is a run of `populate` without a
fault on element 6 of the document. -/
theorem EntryFromJSON_ok {isDigit : Char → Bool} {jd : List Node} {entry : Entry}
    (h : EntryFromJSON isDigit (.ok jd) = (entry, none)) :
    ∃ darray, jd.get? 6 = some (.arr darray) ∧
      populate isDigit jd darray {} = (.ok (), entry) := by
  unfold EntryFromJSON at h
  simp only at h
  split at h
  · exact absurd (congrArg Prod.snd h) (fun h' => Option.noConfusion h')
  · split at h
    · rename_i darray hd
      refine ⟨darray, hd, ?_⟩
      split at h
      · rename_i u e he
        have : e = entry := congrArg Prod.fst h
        subst this
        exact he
      · exact absurd (congrArg Prod.snd h) (fun h' => Option.noConfusion h')
    · exact absurd (congrArg Prod.snd h) (fun h' => Option.noConfusion h')

theorem TrimPrefix_append (p r : String) : TrimPrefix (p ++ r) p = r := by
  unfold TrimPrefix
  have hpre : p.data.isPrefixOf (p ++ r).data = true := by
    rw [String.data_append, List.isPrefixOf_iff_prefix]
    exact List.prefix_append _ _
  rw [if_pos hpre, String.data_append, List.drop_left]

theorem TrimPrefix_unchanged (s p : String) (h : p.data.isPrefixOf s.data = false) :
    TrimPrefix s p = s := by
  unfold TrimPrefix
  rw [if_neg (by simp [h])]

/-! ## Address and owner link: claims C14 and C15 -/

/-- The address on a run without a fault. When `EntryFromJSON` returns a record
without an error and the raw address at offset 18 of the primary data
sub-sequence is the text `a`: if `a` is the record's name followed by "," and a
text `r`, the record's `Address` is `r` trimmed of leading and trailing
whitespace; if `a` does not start with the name followed by ",", the `Address`
is `a` trimmed. -/
theorem EntryFromJSON_address (isDigit : Char → Bool) (jd darray : List Node)
    (entry : Entry) (a : String)
    (hres : EntryFromJSON isDigit (.ok jd) = (entry, none))
    (hd : jd.get? 6 = some (.arr darray))
    (ha : index darray 18 = some (.str a)) :
    (∀ r : String, a = entry.Title ++ "," ++ r → entry.Address = TrimSpace r) ∧
    ((entry.Title ++ ",").data.isPrefixOf a.data = false → entry.Address = TrimSpace a) := by
  obtain ⟨darray', hd', hpop⟩ := EntryFromJSON_ok hres
  have hsame : darray' = darray := by
    rw [hd] at hd'
    exact (Node.arr.inj (Option.some.inj hd')).symm
  subst hsame
  obtain ⟨title, address, _, _, _, _, _, _, _, haddr, htitle, hAddress, _⟩ := populate_ok hpop
  rw [getNthElementAndCast_single String ha] at haddr
  have haddress : address = a := (Except.ok.inj haddr).symm
  subst haddress
  rw [htitle, hAddress]
  constructor
  · intro r hr
    rw [hr, TrimPrefix_append]
  · intro hnot
    rw [TrimPrefix_unchanged _ _ hnot]

/-- C14 (evaluation of the code at the failing input). In `darrayAddrShort` the
name at offset 11 is "Cafe Roma" and the raw address at offset 18 is
"Cafe Roma, 123 Main St", yet the first read, of offset 27 in a sequence of 20
elements, faults before the address is assigned: `EntryFromJSON` returns the
error of the recovered fault and an empty `Address`. On `docCafe`, where the
same name and address sit in a sequence of 58 elements, the `Address` is
"123 Main St". -/
theorem EntryFromJSON_address_lost :
    index darrayAddrShort 11 = some (.str "Cafe Roma") ∧
    index darrayAddrShort 18 = some (.str "Cafe Roma, 123 Main St") ∧
    (EntryFromJSON Char.isDigit (.ok docAddrShort)).2 =
      some (.recovered (.indexOutOfRange 27 20)) ∧
    (EntryFromJSON Char.isDigit (.ok docAddrShort)).1.Address = "" ∧
    (EntryFromJSON Char.isDigit (.ok docCafe)).2 = none ∧
    (EntryFromJSON Char.isDigit (.ok docCafe)).1.Address = "123 Main St" := by
  refine ⟨?_, ?_, ?_, ?_, ?_, ?_⟩ <;> rfl

/-- C15. When `EntryFromJSON` returns a record without an error, `Owner.Link` is
"https://www.google.com/maps/contrib/" followed by `Owner.ID` when `Owner.ID` is
non-empty, and is empty when `Owner.ID` is empty. -/
theorem EntryFromJSON_owner_link (isDigit : Char → Bool) (jd : List Node) (entry : Entry)
    (hres : EntryFromJSON isDigit (.ok jd) = (entry, none)) :
    (entry.Owner.ID ≠ "" →
      entry.Owner.Link = "https://www.google.com/maps/contrib/" ++ entry.Owner.ID) ∧
    (entry.Owner.ID = "" → entry.Owner.Link = "") := by
  obtain ⟨darray, _, hpop⟩ := EntryFromJSON_ok hres
  obtain ⟨_, _, _, _, ownerID, _, _, _, _, _, _, _, _, _, _, _, hid, hlink, _⟩ := populate_ok hpop
  rw [hid, hlink]
  constructor
  · intro h
    rw [if_pos h]
  · intro h
    rw [if_neg (not_not.mpr h)]

/-- C15 witness: the owner identifier "abc123" of `docCafe`. -/
theorem EntryFromJSON_owner_link_witness :
    ((EntryFromJSON Char.isDigit (.ok docCafe)).1.Owner.ID ≠ "" →
      (EntryFromJSON Char.isDigit (.ok docCafe)).1.Owner.Link =
        "https://www.google.com/maps/contrib/" ++
          (EntryFromJSON Char.isDigit (.ok docCafe)).1.Owner.ID) ∧
    ((EntryFromJSON Char.isDigit (.ok docCafe)).1.Owner.ID = "" →
      (EntryFromJSON Char.isDigit (.ok docCafe)).1.Owner.Link = "") :=
  EntryFromJSON_owner_link Char.isDigit docCafe _ rfl

/-! ## About sections: claims C11 and C12 -/

theorem forall₂_range_index {α β : Type} {l : List α} {rs : List β} {Q : Nat → β → Prop}
    (h : List.Forall₂ Q (List.range l.length) rs) :
    List.Forall₂ (fun raw r => ∃ i, l.get? i = some raw ∧ Q i r) l rs := by
  have hlen : l.length = rs.length := by
    have := h.length_eq
    simpa using this
  apply List.forall₂_of_length_eq_of_get hlen
  intro i h1 h2
  have hq := h.get (by simpa using h1) h2
  simp only [List.get_eq_getElem, List.getElem_range] at hq
  exact ⟨i, List.get?_eq_get h1, hq⟩

theorem forall₂_map_eq {α β γ : Type} {l : List α} {rs : List β} {P : α → β → Prop}
    (f : β → γ) (g : α → γ) (h : List.Forall₂ P l rs) (hP : ∀ a b, P a b → f b = g a) :
    rs.map f = l.map g := by
  induction h with
  | nil => rfl
  | cons hab _ ih => rw [List.map_cons, List.map_cons, ih, hP _ _ hab]

/-- A read of the text at offset 1 of a sequence that does not fault yields
`secondText`. -/
theorem getNthElementAndCast_secondText {lst : List Node} {name : String}
    (h : getNthElementAndCast String lst [1] = .ok name) : name = secondText lst := by
  match lst, h with
  | [], h =>
    simp only [getNthElementAndCast, List.length_nil, if_pos] at h
    exact (Except.ok.inj h).symm
  | [x], h =>
    exact absurd h (by simp [getNthElementAndCast, index])
  | x :: y :: rest, h =>
    rw [@getNthElementAndCast_single String _ (x :: y :: rest) 1 y rfl] at h
    have := (Except.ok.inj h).symm
    subst this
    cases y <;> rfl

theorem getNthElementAndCast_optionName {optsI : List Node} {j : Nat} {o : Node}
    {name : String} (ho : optsI.get? j = some o)
    (h : getNthElementAndCast String optsI [(j : Int), 1] = .ok name) :
    name = optionName o := by
  have hidx : index optsI (j : Int) = some o := by rw [index_natCast]; exact ho
  cases o with
  | arr lst =>
    rw [getNthElementAndCast_step String 1 [] hidx] at h
    exact getNthElementAndCast_secondText h
  | _ =>
    rw [getNthElementAndCast_stop String 1 [] (Int.ofNat_nonneg j)
      (by intro next hn; rw [hidx] at hn; exact Node.noConfusion (Option.some.inj hn))] at h
    exact (Except.ok.inj h).symm

theorem getNthElementAndCast_rawOptions {raw : Node} {optsI : List Node}
    (h : getNthElementAndCast (List Node) (coerce (List Node) raw) [2] = .ok optsI) :
    optsI = rawOptions raw := by
  cases raw with
  | arr l =>
    change getNthElementAndCast (List Node) l [2] = .ok optsI at h
    match l, h with
    | [], h =>
      simp only [getNthElementAndCast, List.length_nil, if_pos] at h
      exact (Except.ok.inj h).symm
    | [x], h => exact absurd h (by simp [getNthElementAndCast, index])
    | [x, y], h => exact absurd h (by simp [getNthElementAndCast, index])
    | x :: y :: z :: rest, h =>
      rw [@getNthElementAndCast_single (List Node) _ (x :: y :: z :: rest) 2 z rfl] at h
      have := (Except.ok.inj h).symm
      subst this
      cases z <;> rfl
  | _ =>
    change getNthElementAndCast (List Node) [] [2] = .ok optsI at h
    simp only [getNthElementAndCast, List.length_nil, if_pos] at h
    exact (Except.ok.inj h).symm

theorem aboutOptions_names (optsI : List Node) (is : List Nat)
    (his : ∀ i ∈ is, i < optsI.length) (acc res : List AboutOption)
    (h : aboutOptions optsI is acc = .ok res) :
    res.map (fun o => o.Name) = acc.map (fun o => o.Name) ++
      (((is.filterMap fun i => optsI.get? i).map optionName).filter (fun n => decide (n ≠ ""))) := by
  induction is generalizing acc with
  | nil =>
    simp only [aboutOptions, Except.ok.injEq] at h
    subst h
    simp
  | cons j js ih =>
    have hj : j < optsI.length := his j (List.mem_cons_self _ _)
    have hget : optsI.get? j = some (optsI.get ⟨j, hj⟩) := List.get?_eq_get hj
    have his' : ∀ i ∈ js, i < optsI.length := fun i hi => his i (List.mem_cons_of_mem _ hi)
    rw [aboutOptions] at h
    cases he : getNthElementAndCast Int optsI [(j : Int), 2, 1, 0, 0] with
    | error f => simp [he] at h
    | ok enabled =>
      cases hn : getNthElementAndCast String optsI [(j : Int), 1] with
      | error f => simp [he, hn] at h
      | ok name =>
        simp only [he, hn] at h
        have hname := getNthElementAndCast_optionName hget hn
        rw [List.filterMap_cons_some hget, List.map_cons, ← hname]
        by_cases hk : name ≠ ""
        · rw [if_pos hk] at h
          rw [ih his' _ h, List.filter_cons_of_pos (by simpa using hk)]
          simp only [List.map_append, List.map_cons, List.map_nil, List.append_assoc,
            List.singleton_append]
        · rw [if_neg hk] at h
          rw [ih his' _ h, List.filter_cons_of_neg (by simpa using hk)]

theorem aboutSection_names {aboutI : List Node} {i : Nat} {raw : Node} {a : About}
    (hraw : aboutI.get? i = some raw) (h : aboutSection aboutI i = .ok a) :
    a.Options.map (fun o => o.Name) =
      ((rawOptions raw).map optionName).filter (fun n => decide (n ≠ "")) := by
  unfold aboutSection at h
  rw [getNthElementAndCast_loop_index (List Node) hraw] at h
  simp only at h
  cases h0 : getNthElementAndCast String (coerce (List Node) raw) [0] with
  | error f => simp [h0] at h
  | ok id =>
    cases h1 : getNthElementAndCast String (coerce (List Node) raw) [1] with
    | error f => simp [h0, h1] at h
    | ok name =>
      cases h2 : getNthElementAndCast (List Node) (coerce (List Node) raw) [2] with
      | error f => simp [h0, h1, h2] at h
      | ok optsI =>
        simp only [h0, h1, h2] at h
        cases h3 : aboutOptions optsI (List.range optsI.length) [] with
        | error f => simp [h3] at h
        | ok options =>
          simp only [h3, Except.ok.injEq] at h
          subst h
          have hopts := getNthElementAndCast_rawOptions h2
          subst hopts
          have := aboutOptions_names _ _ (fun i hi => List.mem_range.mp hi) [] options h3
          rw [range_filterMap_get?] at this
          simpa using this

/-- C11. When `EntryFromJSON` returns a record without an error, every option of
every about section has a non-empty name, and, section by section in the order
of the raw sequence at path 100, 1, the names of the options of a section are
exactly, in order, the non-empty names (text at relative path 1) of the raw
options of that section. -/
theorem EntryFromJSON_about_options (isDigit : Char → Bool) (jd : List Node)
    (entry : Entry) (hres : EntryFromJSON isDigit (.ok jd) = (entry, none)) :
    (∀ a ∈ entry.About, ∀ o ∈ a.Options, o.Name ≠ "") ∧
    ∃ darray aboutI, jd.get? 6 = some (.arr darray) ∧
      getNthElementAndCast (List Node) darray [100, 1] = .ok aboutI ∧
      entry.About.map (fun a => a.Options.map (fun o => o.Name)) =
        aboutI.map (fun raw =>
          ((rawOptions raw).map optionName).filter (fun n => decide (n ≠ ""))) := by
  obtain ⟨darray, hd, hpop⟩ := EntryFromJSON_ok hres
  obtain ⟨_, _, _, _, _, aboutI, _, _, _, _, _, _, _, _, _, _, _, _, habout, hsecs, _⟩ :=
    populate_ok hpop
  have hmap := forall₂_map_eq (fun a : About => a.Options.map (fun o => o.Name))
    (fun raw => ((rawOptions raw).map optionName).filter (fun n => decide (n ≠ "")))
    (forall₂_range_index hsecs) (fun raw a ⟨i, hraw, ha⟩ => aboutSection_names hraw ha)
  refine ⟨?_, darray, aboutI, hd, habout, hmap⟩
  intro a ha o ho hname
  have h1 : a.Options.map (fun o => o.Name) ∈
      entry.About.map (fun a => a.Options.map (fun o => o.Name)) :=
    List.mem_map_of_mem _ ha
  rw [hmap] at h1
  obtain ⟨raw, _, hraw⟩ := List.mem_map.mp h1
  have h2 : o.Name ∈ a.Options.map (fun o => o.Name) := List.mem_map_of_mem _ ho
  rw [← hraw] at h2
  have h3 := (List.mem_filter.mp h2).2
  simp [hname] at h3

/-- C11 witness: the two about sections of `docAboutTwo`. -/
theorem EntryFromJSON_about_options_witness :
    (∀ a ∈ (EntryFromJSON Char.isDigit (.ok docAboutTwo)).1.About,
      ∀ o ∈ a.Options, o.Name ≠ "") ∧
    ∃ darray aboutI, docAboutTwo.get? 6 = some (.arr darray) ∧
      getNthElementAndCast (List Node) darray [100, 1] = .ok aboutI ∧
      (EntryFromJSON Char.isDigit (.ok docAboutTwo)).1.About.map
          (fun a => a.Options.map (fun o => o.Name)) =
        aboutI.map (fun raw =>
          ((rawOptions raw).map optionName).filter (fun n => decide (n ≠ ""))) :=
  EntryFromJSON_about_options Char.isDigit docAboutTwo _ rfl

/-- C12. When `EntryFromJSON` returns a record without an error, the `About` list
has exactly as many sections as the raw sequence at path 100, 1 has elements,
and its sections are, position by position, the ones computed from the raw
elements, whether or not they keep any option. -/
theorem EntryFromJSON_about_sections_kept (isDigit : Char → Bool) (jd : List Node)
    (entry : Entry) (hres : EntryFromJSON isDigit (.ok jd) = (entry, none)) :
    ∃ darray aboutI, jd.get? 6 = some (.arr darray) ∧
      getNthElementAndCast (List Node) darray [100, 1] = .ok aboutI ∧
      entry.About.length = aboutI.length ∧
      List.Forall₂ (fun raw a => ∃ i, aboutI.get? i = some raw ∧ aboutSection aboutI i = .ok a)
        aboutI entry.About := by
  obtain ⟨darray, hd, hpop⟩ := EntryFromJSON_ok hres
  obtain ⟨_, _, _, _, _, aboutI, _, _, _, _, _, _, _, _, _, _, _, _, habout, hsecs, _⟩ :=
    populate_ok hpop
  have hall := forall₂_range_index hsecs
  exact ⟨darray, aboutI, hd, habout, hall.length_eq.symm, hall⟩

/-- C12 witness: the two about sections of `docAboutTwo`, the second of which
has no option. -/
theorem EntryFromJSON_about_sections_kept_witness :
    ∃ darray aboutI, docAboutTwo.get? 6 = some (.arr darray) ∧
      getNthElementAndCast (List Node) darray [100, 1] = .ok aboutI ∧
      (EntryFromJSON Char.isDigit (.ok docAboutTwo)).1.About.length = aboutI.length ∧
      List.Forall₂ (fun raw a => ∃ i, aboutI.get? i = some raw ∧ aboutSection aboutI i = .ok a)
        aboutI (EntryFromJSON Char.isDigit (.ok docAboutTwo)).1.About :=
  EntryFromJSON_about_sections_kept Char.isDigit docAboutTwo _ rfl

/-! ## Reviews: claim C13 -/

theorem forall₂_exists_of_mem_right {α β : Type} {P : α → β → Prop} {l : List α}
    {rs : List β} (h : List.Forall₂ P l rs) {r : β} (hr : r ∈ rs) : ∃ a ∈ l, P a r := by
  induction h with
  | nil => exact absurd hr (List.not_mem_nil r)
  | cons hab _ ih =>
    rcases List.mem_cons.mp hr with rfl | hr'
    · exact ⟨_, List.mem_cons_self _ _, hab⟩
    · obtain ⟨a, ha, hp⟩ := ih hr'
      exact ⟨a, List.mem_cons_of_mem _ ha, hp⟩

theorem getNthElementAndCast_reviewerName {raw : Node} {name : String}
    (h : getNthElementAndCast String (coerce (List Node) raw) [0, 1] = .ok name) :
    name = reviewerName raw := by
  have hstop : ∀ (l : List Node), (∀ next, index l 0 ≠ some (.arr next)) →
      getNthElementAndCast String l [0, 1] = .ok name → name = "" := by
    intro l hl hh
    rw [getNthElementAndCast_stop String 1 [] (le_refl 0) hl] at hh
    exact (Except.ok.inj hh).symm
  cases raw with
  | arr l =>
    change getNthElementAndCast String l [0, 1] = .ok name at h
    match l, h with
    | [], h => exact hstop [] (by intro next hn; simp [index] at hn) h
    | x :: rest, h =>
      cases x with
      | arr who =>
        rw [@getNthElementAndCast_step String _ (Node.arr who :: rest) who 0 1 [] rfl] at h
        exact getNthElementAndCast_secondText h
      | null => exact hstop _ (by intro next hn; simp [index] at hn) h
      | bool b => exact hstop _ (by intro next hn; simp [index] at hn) h
      | num q => exact hstop _ (by intro next hn; simp [index] at hn) h
      | str t => exact hstop _ (by intro next hn; simp [index] at hn) h
      | obj kvs => exact hstop _ (by intro next hn; simp [index] at hn) h
  | null => exact hstop [] (by intro next hn; simp [index] at hn) h
  | bool b => exact hstop [] (by intro next hn; simp [index] at hn) h
  | num q => exact hstop [] (by intro next hn; simp [index] at hn) h
  | str t => exact hstop [] (by intro next hn; simp [index] at hn) h
  | obj kvs => exact hstop [] (by intro next hn; simp [index] at hn) h

theorem reviewImages_nonempty (optsI : List Node) (is : List Nat) (acc res : List String)
    (h : reviewImages optsI is acc = .ok res) (hacc : ∀ s ∈ acc, s ≠ "") :
    ∀ s ∈ res, s ≠ "" := by
  induction is generalizing acc with
  | nil =>
    simp only [reviewImages, Except.ok.injEq] at h
    subst h
    exact hacc
  | cons j js ih =>
    rw [reviewImages] at h
    cases hv : getNthElementAndCast String optsI [(j : Int), 6, 0] with
    | error f => simp [hv] at h
    | ok val =>
      simp only [hv] at h
      by_cases hk : val ≠ ""
      · rw [if_pos hk] at h
        refine ih _ h ?_
        intro s hs
        rcases List.mem_append.mp hs with h1 | h1
        · exact hacc s h1
        · rw [List.mem_singleton.mp h1]
          exact hk
      · rw [if_neg hk] at h
        exact ih _ h hacc

theorem reviewEntry_spec {reviewsI : List Node} {i : Nat} {raw : Node} {r : Option Review}
    (hraw : reviewsI.get? i = some raw) (h : reviewEntry reviewsI i = .ok r) :
    r.map (fun rv => rv.Name) =
      (if reviewerName raw ≠ "" then some (reviewerName raw) else none) ∧
    ∀ rv, r = some rv → ∀ s ∈ rv.Images, s ≠ "" := by
  unfold reviewEntry at h
  rw [getNthElementAndCast_loop_index (List Node) hraw] at h
  simp only at h
  cases h0 : getNthElementAndCast String (coerce (List Node) raw) [0, 1] with
  | error f => simp [h0] at h
  | ok name =>
    have hname := getNthElementAndCast_reviewerName h0
    subst hname
    cases h1 : getNthElementAndCast String (coerce (List Node) raw) [0, 2] with
    | error f => simp [h0, h1] at h
    | ok profilePicture =>
      cases h2 : getNthElementAndCast String (coerce (List Node) raw) [1] with
      | error f => simp [h0, h1, h2] at h
      | ok when_ =>
        cases h3 : getNthElementAndCast ℚ (coerce (List Node) raw) [4] with
        | error f => simp [h0, h1, h2, h3] at h
        | ok rating =>
          cases h4 : getNthElementAndCast String (coerce (List Node) raw) [3] with
          | error f => simp [h0, h1, h2, h3, h4] at h
          | ok description =>
            simp only [h0, h1, h2, h3, h4] at h
            by_cases hk : reviewerName raw = ""
            · rw [if_pos hk] at h
              have := (Except.ok.inj h).symm
              subst this
              refine ⟨?_, fun rv hrv => Option.noConfusion hrv⟩
              rw [if_neg (not_not.mpr hk)]
              rfl
            · rw [if_neg hk] at h
              cases h5 : getNthElementAndCast (List Node) (coerce (List Node) raw) [14] with
              | error f => simp [h5] at h
              | ok optsI =>
                simp only [h5] at h
                cases h6 : reviewImages optsI (List.range optsI.length) [] with
                | error f => simp [h6] at h
                | ok images =>
                  simp only [h6, Except.ok.injEq] at h
                  subst h
                  refine ⟨?_, ?_⟩
                  · rw [if_pos hk]
                    rfl
                  · intro rv hrv
                    have := (Option.some.inj hrv).symm
                    subst this
                    exact reviewImages_nonempty _ _ [] images h6
                      (fun s hs => absurd hs (List.not_mem_nil s))

theorem filterMap_id_map_name (revs : List (Option Review)) :
    (revs.filterMap id).map (fun rv => rv.Name) =
      (revs.map (Option.map fun rv => rv.Name)).filterMap id := by
  induction revs with
  | nil => rfl
  | cons r rest ih =>
    cases r with
    | none => simpa using ih
    | some rv => simpa using ih

theorem filterMap_id_nameOpt (reviewsI : List Node) :
    (reviewsI.map fun raw =>
        if reviewerName raw ≠ "" then some (reviewerName raw) else none).filterMap id =
      (reviewsI.map reviewerName).filter (fun n => decide (n ≠ "")) := by
  induction reviewsI with
  | nil => rfl
  | cons raw rest ih =>
    by_cases hk : reviewerName raw = ""
    · simpa [hk] using ih
    · simpa [hk] using ih

/-- C13. When `EntryFromJSON` returns a record without an error, every review of
`UserReviews` has a non-empty name and only non-empty texts in `Images`, and
the names of the retained reviews are exactly, in order, the non-empty reviewer
names (text at relative path 0, 1) of the raw review entries at path 52, 0. -/
theorem EntryFromJSON_reviews (isDigit : Char → Bool) (jd : List Node)
    (entry : Entry) (hres : EntryFromJSON isDigit (.ok jd) = (entry, none)) :
    (∀ r ∈ entry.UserReviews, r.Name ≠ "" ∧ ∀ s ∈ r.Images, s ≠ "") ∧
    ∃ darray reviewsI, jd.get? 6 = some (.arr darray) ∧
      getNthElementAndCast (List Node) darray [52, 0] = .ok reviewsI ∧
      entry.UserReviews.map (fun r => r.Name) =
        (reviewsI.map reviewerName).filter (fun n => decide (n ≠ "")) := by
  obtain ⟨darray, hd, hpop⟩ := EntryFromJSON_ok hres
  obtain ⟨_, _, _, _, _, _, reviewsI, revs, _, _, _, _, _, _, _, _, _, _, _, _, hreviewsI,
    hrevs, hUser⟩ := populate_ok hpop
  have hall := forall₂_range_index hrevs
  have hmap := forall₂_map_eq (Option.map fun rv : Review => rv.Name)
    (fun raw => if reviewerName raw ≠ "" then some (reviewerName raw) else none)
    hall (fun raw r ⟨i, hraw, hr⟩ => (reviewEntry_spec hraw hr).1)
  refine ⟨?_, darray, reviewsI, hd, hreviewsI, ?_⟩
  · intro r hr
    rw [hUser] at hr
    have hmem : some r ∈ revs := by
      obtain ⟨o, ho, hid⟩ := List.mem_filterMap.mp hr
      rw [show o = some r from hid] at ho
      exact ho
    obtain ⟨raw, _, i, hraw, hrev⟩ := forall₂_exists_of_mem_right hall hmem
    obtain ⟨hname, himgs⟩ := reviewEntry_spec hraw hrev
    refine ⟨?_, himgs r rfl⟩
    intro hempty
    by_cases hk : reviewerName raw = ""
    · rw [if_neg (not_not.mpr hk)] at hname
      exact Option.noConfusion hname
    · rw [if_pos hk] at hname
      have : r.Name = reviewerName raw := Option.some.inj hname
      exact hk (this ▸ hempty)
  · rw [hUser, filterMap_id_map_name, hmap, filterMap_id_nameOpt]

/-- C13 witness: of the three raw entries of `docReviews` only the review by
"Ann" is retained. -/
theorem EntryFromJSON_reviews_witness :
    (∀ r ∈ (EntryFromJSON Char.isDigit (.ok docReviews)).1.UserReviews,
      r.Name ≠ "" ∧ ∀ s ∈ r.Images, s ≠ "") ∧
    ∃ darray reviewsI, docReviews.get? 6 = some (.arr darray) ∧
      getNthElementAndCast (List Node) darray [52, 0] = .ok reviewsI ∧
      (EntryFromJSON Char.isDigit (.ok docReviews)).1.UserReviews.map (fun r => r.Name) =
        (reviewsI.map reviewerName).filter (fun n => decide (n ≠ "")) :=
  EntryFromJSON_reviews Char.isDigit docReviews _ rfl

/-! ## Ordering links: claim C17 -/

/-- A result of the loop of `getLinkSource` holds the pairs built so far and the
pair of every visited item whose link and source are both non-empty. -/
theorem getLinkSourceLoop_mem (params : getLinkSourceParams) (is : List Nat)
    (acc res : List LinkSource) (h : getLinkSourceLoop params is acc = .ok res) :
    (∀ x ∈ acc, x ∈ res) ∧
    ∀ i ∈ is, ∀ it, params.arr.get? i = some it → ∀ l s,
      getNthElementAndCast String (coerce (List Node) it) params.link = .ok l →
      getNthElementAndCast String (coerce (List Node) it) params.source = .ok s →
      l ≠ "" → s ≠ "" → ({ Link := l, Source := s } : LinkSource) ∈ res := by
  induction is generalizing acc with
  | nil =>
    simp only [getLinkSourceLoop, Except.ok.injEq] at h
    subst h
    exact ⟨fun x hx => hx, fun i hi => absurd hi (List.not_mem_nil i)⟩
  | cons j js ih =>
    rw [getLinkSourceLoop] at h
    cases hitem : getNthElementAndCast (List Node) params.arr [(j : Int)] with
    | error f => simp [hitem] at h
    | ok item =>
      cases hs : getNthElementAndCast String item params.source with
      | error f => simp [hitem, hs] at h
      | ok source =>
        cases hl : getNthElementAndCast String item params.link with
        | error f => simp [hitem, hs, hl] at h
        | ok link =>
          simp only [hitem, hs, hl] at h
          have hhead : ∀ it, params.arr.get? j = some it → ∀ l s,
              getNthElementAndCast String (coerce (List Node) it) params.link = .ok l →
              getNthElementAndCast String (coerce (List Node) it) params.source = .ok s →
              l = link ∧ s = source := by
            intro it hit l s hl' hs'
            rw [getNthElementAndCast_loop_index (List Node) hit] at hitem
            have := Except.ok.inj hitem
            subst this
            rw [hl] at hl'
            rw [hs] at hs'
            exact ⟨(Except.ok.inj hl').symm, (Except.ok.inj hs').symm⟩
          by_cases hk : link ≠ "" ∧ source ≠ ""
          · rw [if_pos hk] at h
            obtain ⟨hacc, hrest⟩ := ih _ h
            refine ⟨fun x hx => hacc x (List.mem_append_left _ hx), ?_⟩
            intro i hi it hit l s hl' hs' hl0 hs0
            rcases List.mem_cons.mp hi with rfl | hi'
            · obtain ⟨rfl, rfl⟩ := hhead it hit l s hl' hs'
              exact hacc _ (List.mem_append_right _ (List.mem_singleton.mpr rfl))
            · exact hrest i hi' it hit l s hl' hs' hl0 hs0
          · rw [if_neg hk] at h
            obtain ⟨hacc, hrest⟩ := ih _ h
            refine ⟨hacc, ?_⟩
            intro i hi it hit l s hl' hs' hl0 hs0
            rcases List.mem_cons.mp hi with rfl | hi'
            · obtain ⟨rfl, rfl⟩ := hhead it hit l s hl' hs'
              exact absurd ⟨hl0, hs0⟩ hk
            · exact hrest i hi' it hit l s hl' hs' hl0 hs0

/-- The ordering links on a run without a fault. When `EntryFromJSON` returns a
record without an error, the first ordering path 75, 0, 1, 2 yields no items
and the alternate path 75, 0, 0, 2 yields the items `alt`, one of which has a
non-empty link (relative path 1, 2, 0) and a non-empty source (relative path
0, 0), the record's `OrderOnline` is non-empty and is the list of pairs that
`getLinkSource` collects from `alt`. -/
theorem EntryFromJSON_order_online_fallback (isDigit : Char → Bool)
    (jd darray alt : List Node) (entry : Entry)
    (hres : EntryFromJSON isDigit (.ok jd) = (entry, none))
    (hd : jd.get? 6 = some (.arr darray))
    (hfirst : getNthElementAndCast (List Node) darray [75, 0, 1, 2] = .ok [])
    (halt : getNthElementAndCast (List Node) darray [75, 0, 0, 2] = .ok alt)
    (hitem : ∃ it ∈ alt, ∃ l s,
      getNthElementAndCast String (coerce (List Node) it) [1, 2, 0] = .ok l ∧
      getNthElementAndCast String (coerce (List Node) it) [0, 0] = .ok s ∧
      l ≠ "" ∧ s ≠ "") :
    entry.OrderOnline ≠ [] ∧
    getLinkSource { arr := alt, link := [1, 2, 0], source := [0, 0] } =
      .ok entry.OrderOnline := by
  obtain ⟨darray', hd', hpop⟩ := EntryFromJSON_ok hres
  have hsame : darray' = darray := by
    rw [hd] at hd'
    exact (Node.arr.inj (Option.some.inj hd')).symm
  subst hsame
  obtain ⟨_, _, first, orderOnlineI, _, _, _, _, _, _, _, _, h1, h2, h3, _⟩ := populate_ok hpop
  rw [hfirst] at h1
  have hf : first = [] := (Except.ok.inj h1).symm
  subst hf
  rw [if_pos List.length_nil, halt] at h2
  have ha : orderOnlineI = alt := (Except.ok.inj h2).symm
  subst ha
  refine ⟨?_, h3⟩
  obtain ⟨it, hit, l, s, hl, hs, hl0, hs0⟩ := hitem
  obtain ⟨i, hget⟩ := List.mem_iff_get?.mp hit
  have hmem := (getLinkSourceLoop_mem _ _ [] _ h3).2 i
    (List.mem_range.mpr (by
      by_contra hge
      rw [List.get?_eq_none.mpr (Nat.le_of_not_lt hge)] at hget
      exact Option.noConfusion hget))
    it hget l s hl hs hl0 hs0
  intro hnil
  rw [hnil] at hmem
  exact absurd hmem (List.not_mem_nil _)

/-- C17 (evaluation of the code at the failing input). In `darrayOrderBadDay` the
first ordering path yields no items and the alternate path holds `itemsOrder`,
whose item has a non-empty link and a non-empty source, yet `getHours` faults
on the one-element day entry before the ordering links are read:
`EntryFromJSON` returns the error of the recovered fault and an empty
`OrderOnline`. On `docOrderFallback`, which differs only in having no day
entry, `OrderOnline` is the pair collected from the alternate path. -/
theorem EntryFromJSON_order_online_lost :
    getNthElementAndCast (List Node) darrayOrderBadDay [75, 0, 1, 2] = .ok [] ∧
    getNthElementAndCast (List Node) darrayOrderBadDay [75, 0, 0, 2] = .ok itemsOrder ∧
    getLinkSource { arr := itemsOrder, link := [1, 2, 0], source := [0, 0] } =
      .ok [{ Link := "https://order.example", Source := "Dash" }] ∧
    (EntryFromJSON Char.isDigit (.ok docOrderBadDay)).2 =
      some (.recovered (.indexOutOfRange 1 1)) ∧
    (EntryFromJSON Char.isDigit (.ok docOrderBadDay)).1.OrderOnline = [] ∧
    (EntryFromJSON Char.isDigit (.ok docOrderFallback)).2 = none ∧
    (EntryFromJSON Char.isDigit (.ok docOrderFallback)).1.OrderOnline =
      [{ Link := "https://order.example", Source := "Dash" }] := by
  refine ⟨?_, ?_, ?_, ?_, ?_, ?_, ?_⟩ <;> rfl

/-! ## Popular times of a well-formed histogram: claim C19 -/

theorem lastLevel_nil (k : Int) : lastLevel [] k = none := rfl

end Gmaps
